import Mathlib

/-!
Verification development for the in-memory OSM data engine (`src-tauri/src`).

Modelling conventions:
* `f64` coordinates are modelled as `ℚ`.  Every store operation relevant to the
  claims below manipulates coordinates only through `min`/`max` and equality,
  which are exact on IEEE doubles as well, so no rounding behaviour is lost.
* The Web-Mercator projection (`projection.rs`) computes transcendental
  functions on doubles; wherever its output merely flows through a pipeline
  (`spatial_query.rs`, `binary_protocol.rs`) it is abstracted as a parameter
  `proj : ℚ → ℚ → ℚ × ℚ`, and the 16-byte little-endian serialisation of a
  projected point as a parameter `pointBytes` with a length hypothesis.
* `DashMap` is modelled as an association list with `DashMap::insert`
  (replace-or-append) semantics; iteration order is the list order.
* The `rstar` R-trees store only `SpatialEntry` values; the claims never depend
  on tree shape, so an R-tree is modelled by the list of its entries
  (insert = append, remove = delete the first equal entry, the by-id scans in
  `osm_store.rs` = filter).  The source's `PartialEq` for `SpatialEntry` uses a
  1e-10 tolerance; with exact `ℚ` coordinates produced by identical
  computations this coincides with exact equality.
* `node_ref_count : DashMap<i64, u16>` is modelled as a total function
  `Int → ℕ` (an absent key behaves exactly like a stored 0 in every operation
  of the source), with `u16` saturating arithmetic written out explicitly.
-/

namespace Mosm

/-- `OsmNode` from `osm_store.rs`. -/
structure OsmNode where
  id : Int
  lat : ℚ
  lon : ℚ
  tags : List (String × String)
deriving DecidableEq

/-- `OsmWay` from `osm_store.rs`.  `render_feature` is the `u16` bitmask,
`layer` the `i8` layer value. -/
structure OsmWay where
  id : Int
  node_refs : List Int
  tags : List (String × String)
  render_feature : ℕ
  layer : Int
  is_area : Bool
deriving DecidableEq

/-- `MemberType` from `osm_store.rs`. -/
inductive MemberType where
  | node
  | way
  | relation
deriving DecidableEq

/-- `RelationMember` from `osm_store.rs`. -/
structure RelationMember where
  member_type : MemberType
  ref_id : Int
  role : String
deriving DecidableEq

/-- `OsmRelation` from `osm_store.rs`. -/
structure OsmRelation where
  id : Int
  members : List RelationMember
  tags : List (String × String)
deriving DecidableEq

/-- `SpatialEntry` from `osm_store.rs`: the only payload of either R-tree. -/
structure SpatialEntry where
  id : Int
  min_lon : ℚ
  min_lat : ℚ
  max_lon : ℚ
  max_lat : ℚ
deriving DecidableEq

/-- Association-list model of `DashMap` lookup (`get`). -/
def mapGet {α : Type} (m : List (Int × α)) (k : Int) : Option α :=
  (m.find? (fun p => p.1 == k)).map (fun p => p.2)

/-- Association-list model of `DashMap::insert`: replace the value when the key
is present, otherwise append a fresh entry. -/
def mapInsert {α : Type} (m : List (Int × α)) (k : Int) (v : α) : List (Int × α) :=
  if (m.find? (fun p => p.1 == k)).isSome then
    m.map (fun p => if p.1 == k then (p.1, v) else p)
  else
    m ++ [(k, v)]

/-- Association-list model of `DashMap::get_mut` followed by a field update. -/
def mapAdjust {α : Type} (m : List (Int × α)) (k : Int) (f : α → α) : List (Int × α) :=
  m.map (fun p => if p.1 == k then (p.1, f p.2) else p)

/-- Association-list model of `DashMap::remove` (drop every entry with the key;
with unique keys this is the single removed entry). -/
def mapErase {α : Type} (m : List (Int × α)) (k : Int) : List (Int × α) :=
  m.filter (fun p => p.1 != k)

/-- Pointwise update of the ref-count function. -/
def upd (f : Int → ℕ) (k : Int) (v : ℕ) : Int → ℕ :=
  fun n => if n = k then v else f n

/-- Remove the first entry equal to `e` (model of `rstar::RTree::remove`). -/
def removeEntry : List SpatialEntry → SpatialEntry → List SpatialEntry
  | [], _ => []
  | x :: xs, e => if x = e then xs else x :: removeEntry xs e

/-- The store (`OsmStore` from `osm_store.rs`). -/
structure OsmStore where
  nodes : List (Int × OsmNode)
  ways : List (Int × OsmWay)
  relations : List (Int × OsmRelation)
  node_ref_count : Int → ℕ
  node_index : List SpatialEntry
  way_index : List SpatialEntry
  index_dirty : Bool
  next_local_id : Int

/-- `OsmStore::new`. -/
def OsmStore.new : OsmStore where
  nodes := []
  ways := []
  relations := []
  node_ref_count := fun _ => 0
  node_index := []
  way_index := []
  index_dirty := false
  next_local_id := -1

/-- One `u16`-saturating increment per occurrence, as performed by the
`entry(..).and_modify(saturating_add(1)).or_insert(1)` loops of
`insert_way` / `add_way_with_index`. -/
def bumpRefCounts (rc : Int → ℕ) (refs : List Int) : Int → ℕ :=
  refs.foldl (fun rc n => upd rc n (min (rc n + 1) 65535)) rc

/-- One saturating decrement per occurrence (`remove_way_with_index`);
`ℕ` subtraction is exactly `u16::saturating_sub`. -/
def dropRefCounts (rc : Int → ℕ) (refs : List Int) : Int → ℕ :=
  refs.foldl (fun rc n => upd rc n (rc n - 1)) rc

/-- `OsmStore::compute_way_bbox`: running min/max over the way's node refs,
skipping refs whose node is absent; `none` when no referenced node exists.
The source's `found` flag and `f64::MAX` seeds are modelled by the `Option`
accumulator. -/
def compute_way_bbox (nodes : List (Int × OsmNode)) (way : OsmWay) : Option SpatialEntry :=
  let acc := way.node_refs.foldl (fun acc nid =>
    match mapGet nodes nid with
    | none => acc
    | some node =>
      match acc with
      | none => some (node.lon, node.lat, node.lon, node.lat)
      | some (a, b, c, d) =>
          some (min a node.lon, min b node.lat, max c node.lon, max d node.lat)) none
  acc.map (fun q =>
    { id := way.id, min_lon := q.1, min_lat := q.2.1, max_lon := q.2.2.1, max_lat := q.2.2.2 })

/-- `OsmStore::insert_node`. -/
def insert_node (s : OsmStore) (node : OsmNode) : OsmStore :=
  { s with nodes := mapInsert s.nodes node.id node, index_dirty := true }

/-- `OsmStore::insert_way`. -/
def insert_way (s : OsmStore) (way : OsmWay) : OsmStore :=
  { s with
    node_ref_count := bumpRefCounts s.node_ref_count way.node_refs
    ways := mapInsert s.ways way.id way
    index_dirty := true }

/-- `OsmStore::rebuild_indices`: bulk-load both R-trees from the current maps. -/
def rebuild_indices (s : OsmStore) : OsmStore :=
  { s with
    node_index := s.nodes.map (fun p =>
      { id := p.2.id, min_lon := p.2.lon, min_lat := p.2.lat
        max_lon := p.2.lon, max_lat := p.2.lat })
    way_index := s.ways.filterMap (fun p => compute_way_bbox s.nodes p.2)
    index_dirty := false }

/-- `OsmStore::find_ways_referencing_node`: linear scan over the ways map. -/
def find_ways_referencing_node (s : OsmStore) (node_id : Int) : List Int :=
  (s.ways.filter (fun p => p.2.node_refs.contains node_id)).map (fun p => p.1)

/-- `OsmStore::add_node_with_index`. -/
def add_node_with_index (s : OsmStore) (node : OsmNode) : OsmStore :=
  let entry : SpatialEntry :=
    { id := node.id, min_lon := node.lon, min_lat := node.lat
      max_lon := node.lon, max_lat := node.lat }
  { s with
    nodes := mapInsert s.nodes node.id node
    node_index := s.node_index ++ [entry] }

/-- `OsmStore::remove_node_with_index`. -/
def remove_node_with_index (s : OsmStore) (node_id : Int) : Option OsmNode × OsmStore :=
  match mapGet s.nodes node_id with
  | none => (none, s)
  | some node =>
    let entry : SpatialEntry :=
      { id := node_id, min_lon := node.lon, min_lat := node.lat
        max_lon := node.lon, max_lat := node.lat }
    (some node,
      { s with
        nodes := mapErase s.nodes node_id
        node_index := removeEntry s.node_index entry })

/-- `OsmStore::add_way_with_index`: bump ref-counts, insert the bbox (when some
referenced node is present), store the way. -/
def add_way_with_index (s : OsmStore) (way : OsmWay) : OsmStore :=
  let rc := bumpRefCounts s.node_ref_count way.node_refs
  let wayIdx :=
    match compute_way_bbox s.nodes way with
    | some bbox => s.way_index ++ [bbox]
    | none => s.way_index
  { s with
    node_ref_count := rc
    way_index := wayIdx
    ways := mapInsert s.ways way.id way }

/-- `OsmStore::remove_way_with_index`: drop the way, decrement the ref-count of
each occurrence, and remove every `way_id`-keyed entry from the way R-tree. -/
def remove_way_with_index (s : OsmStore) (way_id : Int) : Option OsmWay × OsmStore :=
  match mapGet s.ways way_id with
  | none => (none, s)
  | some way =>
    (some way,
      { s with
        ways := mapErase s.ways way_id
        node_ref_count := dropRefCounts s.node_ref_count way.node_refs
        way_index := s.way_index.filter (fun e => e.id != way_id) })

/-- `OsmStore::update_way_rtree`: scan-and-match deletion by id, then insert the
recomputed bbox (when the way still exists and has a present node). -/
def update_way_rtree (s : OsmStore) (way_id : Int) : OsmStore :=
  let filtered := s.way_index.filter (fun e => e.id != way_id)
  let newIdx :=
    match mapGet s.ways way_id with
    | some way =>
      match compute_way_bbox s.nodes way with
      | some bbox => filtered ++ [bbox]
      | none => filtered
    | none => filtered
  { s with way_index := newIdx }

/-- `OsmStore::update_node_position`: overwrite the coordinates, move the node's
point entry in the node R-tree, and refresh the bbox of every way referencing
the node (scan-and-match by id). -/
def update_node_position (s : OsmStore) (node_id : Int) (new_lon new_lat : ℚ) :
    Bool × OsmStore :=
  match mapGet s.nodes node_id with
  | none => (false, s)
  | some node =>
    let old_entry : SpatialEntry :=
      { id := node_id, min_lon := node.lon, min_lat := node.lat
        max_lon := node.lon, max_lat := node.lat }
    let new_entry : SpatialEntry :=
      { id := node_id, min_lon := new_lon, min_lat := new_lat
        max_lon := new_lon, max_lat := new_lat }
    let s1 := { s with
      nodes := mapAdjust s.nodes node_id (fun n => { n with lon := new_lon, lat := new_lat })
      node_index := removeEntry s.node_index old_entry ++ [new_entry] }
    let affected := (s1.ways.filter (fun p => p.2.node_refs.contains node_id)).map (fun p => p.1)
    (true, affected.foldl (fun s wid => update_way_rtree s wid) s1)

/-- Insert `a` at position `pos` (`Vec::insert`); the caller guards
`pos ≤ length` exactly as the source does. -/
def insertAt (a : Int) : ℕ → List Int → List Int
  | 0, l => a :: l
  | _ + 1, [] => []
  | n + 1, x :: xs => x :: insertAt a n xs

/-- The `for (offset, idx) in indices.iter().enumerate()` insertion loop of
`OsmStore::insert_node_to_way`, with its `insert_pos <= len` guard. -/
def insertRefs (node_id : Int) : List ℕ → ℕ → List Int → List Int
  | [], _, refs => refs
  | idx :: rest, offset, refs =>
    let insert_pos := idx + offset
    let refs1 := if insert_pos ≤ refs.length then insertAt node_id insert_pos refs else refs
    insertRefs node_id rest (offset + 1) refs1

/-- `OsmStore::insert_node_to_way`: splice the node back at the recorded
positions, bump the ref-count by `indices.len() as u16`, refresh the bbox.
The ref-count update runs whenever `indices` is non-empty, whether or not the
way exists (as in the source). -/
def insert_node_to_way (s : OsmStore) (way_id node_id : Int) (indices : List ℕ) : OsmStore :=
  let s1 := { s with
    ways := mapAdjust s.ways way_id (fun w =>
      { w with node_refs := insertRefs node_id indices 0 w.node_refs }) }
  if indices.isEmpty then s1
  else
    let k := indices.length % 65536
    let s2 := { s1 with
      node_ref_count := upd s1.node_ref_count node_id
        (min (s1.node_ref_count node_id + k) 65535) }
    update_way_rtree s2 way_id

/-- The index positions of `node_id` inside `refs`
(the `enumerate().filter().map()` of `remove_node_from_way` / `delete_node`),
generalised over the enumeration start. -/
def occIndicesFrom (node_id : Int) : ℕ → List Int → List ℕ
  | _, [] => []
  | i, r :: rest =>
    if r = node_id then i :: occIndicesFrom node_id (i + 1) rest
    else occIndicesFrom node_id (i + 1) rest

/-- `OsmStore::remove_node_from_way`: record the positions of every occurrence,
remove them (the source erases the recorded indices back-to-front, which
removes exactly the occurrences of `node_id`, i.e. a filter), decrement the
ref-count by `removed.len() as u16`, refresh the bbox.  Returns the removed
index positions. -/
def remove_node_from_way (s : OsmStore) (way_id node_id : Int) : List ℕ × OsmStore :=
  match mapGet s.ways way_id with
  | none => ([], s)
  | some way =>
    let indices := occIndicesFrom node_id 0 way.node_refs
    let s1 := { s with
      ways := mapAdjust s.ways way_id (fun w =>
        { w with node_refs := w.node_refs.filter (fun r => r != node_id) }) }
    if indices.isEmpty then (indices, s1)
    else
      let k := indices.length % 65536
      let s2 := { s1 with
        node_ref_count := upd s1.node_ref_count node_id (s1.node_ref_count node_id - k) }
      (indices, update_way_rtree s2 way_id)

/-- `OsmStore::is_way_valid`. -/
def is_way_valid (s : OsmStore) (way_id : Int) : Bool :=
  match mapGet s.ways way_id with
  | some w => 2 ≤ w.node_refs.length
  | none => false

/-! ## Edit history (`history.rs`) -/

/-- `CommandResult` from `history.rs`. -/
structure CommandResult where
  success : Bool
  needs_redraw : Bool
  message : Option String
deriving DecidableEq

/-- `CommandResult::success`. -/
def CommandResult.ok (needs_redraw : Bool) : CommandResult :=
  { success := true, needs_redraw := needs_redraw, message := none }

/-- `CommandResult::failure`. -/
def CommandResult.failure (message : String) : CommandResult :=
  { success := false, needs_redraw := false, message := some message }

/-- The concrete command set of `history.rs`, as a tagged variant (the source
uses `Box<dyn Command>` over exactly these implementors). -/
inductive Command where
  | updateWayTags (way_id : Int) (old_tags new_tags : List (String × String))
      (old_render_feature new_render_feature : ℕ) (old_layer new_layer : Int)
      (old_is_area new_is_area : Bool)
  | updateNodeTags (node_id : Int) (old_tags new_tags : List (String × String))
  | moveNode (node_id : Int) (old_lon old_lat new_lon new_lat : ℚ)
  | addNode (node : OsmNode)
  | deleteWay (way : OsmWay)
  | deleteNode (node : OsmNode) (way_references : List (Int × List ℕ))
      (cascaded_ways : List OsmWay)

/-- `Command::apply` for each implementor in `history.rs`. -/
def applyCmd : Command → OsmStore → CommandResult × OsmStore
  | .updateWayTags way_id _ new_tags old_rf new_rf _ new_layer _ new_is_area, s =>
    match mapGet s.ways way_id with
    | some _ =>
      (CommandResult.ok (old_rf != new_rf),
        { s with ways := mapAdjust s.ways way_id (fun w =>
            { w with tags := new_tags, render_feature := new_rf
                     layer := new_layer, is_area := new_is_area }) })
    | none => (CommandResult.failure "Way not found", s)
  | .updateNodeTags node_id _ new_tags, s =>
    match mapGet s.nodes node_id with
    | some _ =>
      (CommandResult.ok false,
        { s with nodes := mapAdjust s.nodes node_id (fun n => { n with tags := new_tags }) })
    | none => (CommandResult.failure "Node not found", s)
  | .moveNode node_id _ _ new_lon new_lat, s =>
    let r := update_node_position s node_id new_lon new_lat
    if r.1 then (CommandResult.ok true, r.2) else (CommandResult.failure "Node not found", r.2)
  | .addNode node, s => (CommandResult.ok true, add_node_with_index s node)
  | .deleteWay way, s => (CommandResult.ok true, (remove_way_with_index s way.id).2)
  | .deleteNode node way_references cascaded_ways, s =>
    let s1 := way_references.foldl
      (fun s p => (remove_node_from_way s p.1 node.id).2) s
    let s2 := cascaded_ways.foldl (fun s w => (remove_way_with_index s w.id).2) s1
    (CommandResult.ok true, (remove_node_with_index s2 node.id).2)

/-- `Command::undo` for each implementor in `history.rs`. -/
def undoCmd : Command → OsmStore → CommandResult × OsmStore
  | .updateWayTags way_id old_tags _ old_rf new_rf old_layer _ old_is_area _, s =>
    match mapGet s.ways way_id with
    | some _ =>
      (CommandResult.ok (old_rf != new_rf),
        { s with ways := mapAdjust s.ways way_id (fun w =>
            { w with tags := old_tags, render_feature := old_rf
                     layer := old_layer, is_area := old_is_area }) })
    | none => (CommandResult.failure "Way not found", s)
  | .updateNodeTags node_id old_tags _, s =>
    match mapGet s.nodes node_id with
    | some _ =>
      (CommandResult.ok false,
        { s with nodes := mapAdjust s.nodes node_id (fun n => { n with tags := old_tags }) })
    | none => (CommandResult.failure "Node not found", s)
  | .moveNode node_id old_lon old_lat _ _, s =>
    let r := update_node_position s node_id old_lon old_lat
    if r.1 then (CommandResult.ok true, r.2) else (CommandResult.failure "Node not found", r.2)
  | .addNode node, s => (CommandResult.ok true, (remove_node_with_index s node.id).2)
  | .deleteWay way, s => (CommandResult.ok true, add_way_with_index s way)
  | .deleteNode node way_references cascaded_ways, s =>
    let s1 := add_node_with_index s node
    let s2 := cascaded_ways.foldl (fun s w => add_way_with_index s w) s1
    let s3 := way_references.foldl
      (fun s p => insert_node_to_way s p.1 node.id p.2) s2
    (CommandResult.ok true, s3)

/-- `HistoryManager`: the two stacks, head = top of stack. -/
structure HistoryManager where
  undo_stack : List Command
  redo_stack : List Command

/-- `HistoryManager::new`. -/
def HistoryManager.new : HistoryManager := { undo_stack := [], redo_stack := [] }

/-- `HistoryManager::execute`: apply; on success push to the undo stack and
clear the redo stack. -/
def hmExecute (hm : HistoryManager) (cmd : Command) (s : OsmStore) :
    CommandResult × HistoryManager × OsmStore :=
  let r := applyCmd cmd s
  if r.1.success then
    (r.1, { undo_stack := cmd :: hm.undo_stack, redo_stack := [] }, r.2)
  else
    (r.1, hm, r.2)

/-- `HistoryManager::undo`: pop; run the command's `undo`; push to the redo
stack only on success. -/
def hmUndo (hm : HistoryManager) (s : OsmStore) :
    CommandResult × HistoryManager × OsmStore :=
  match hm.undo_stack with
  | [] => (CommandResult.failure "Nothing to undo", hm, s)
  | cmd :: rest =>
    let r := undoCmd cmd s
    if r.1.success then
      (r.1, { undo_stack := rest, redo_stack := cmd :: hm.redo_stack }, r.2)
    else
      (r.1, { undo_stack := rest, redo_stack := hm.redo_stack }, r.2)

/-- `HistoryManager::redo`: mirror of `hmUndo`. -/
def hmRedo (hm : HistoryManager) (s : OsmStore) :
    CommandResult × HistoryManager × OsmStore :=
  match hm.redo_stack with
  | [] => (CommandResult.failure "Nothing to redo", hm, s)
  | cmd :: rest =>
    let r := applyCmd cmd s
    if r.1.success then
      (r.1, { undo_stack := cmd :: hm.undo_stack, redo_stack := rest }, r.2)
    else
      (r.1, { undo_stack := hm.undo_stack, redo_stack := rest }, r.2)

/-! ## Editing dispatchers (`commands/editing.rs`) -/

/-- `DeleteFeatureResult` from `types.rs`. -/
structure DeleteFeatureResult where
  success : Bool
  message : Option String
  cascaded_way_ids : List Int
deriving DecidableEq

/-- The `delete_node` dispatcher of `commands/editing.rs`: pre-compute, for
every way referencing the node, the occurrence positions; collect the ways that
would drop below 2 nodes (cascade); build and execute a `DeleteNodeCommand`. -/
def delete_node (s : OsmStore) (hm : HistoryManager) (node_id : Int) :
    DeleteFeatureResult × HistoryManager × OsmStore :=
  match mapGet s.nodes node_id with
  | none =>
    ({ success := false, message := some "Node not found", cascaded_way_ids := [] }, hm, s)
  | some node =>
    let referencing := find_ways_referencing_node s node_id
    let way_references := referencing.filterMap (fun wid =>
      (mapGet s.ways wid).map (fun w => (wid, occIndicesFrom node_id 0 w.node_refs)))
    let cascaded_ways := referencing.filterMap (fun wid =>
      (mapGet s.ways wid).bind (fun w =>
        if w.node_refs.length - (occIndicesFrom node_id 0 w.node_refs).length < 2
        then some w else none))
    let cascaded_way_ids := cascaded_ways.map (fun w => w.id)
    let r := hmExecute hm (.deleteNode node way_references cascaded_ways) s
    ({ success := r.1.success, message := r.1.message, cascaded_way_ids := cascaded_way_ids },
      r.2.1, r.2.2)

/-- The `move_node` dispatcher of `commands/editing.rs`.  The source converts
the Mercator click position through `mercator_to_lonlat` (IEEE doubles); that
conversion's output is taken here as the arguments `new_lon new_lat`. -/
def move_node (s : OsmStore) (hm : HistoryManager) (node_id : Int)
    (new_lon new_lat : ℚ) :
    CommandResult × HistoryManager × OsmStore :=
  match mapGet s.nodes node_id with
  | none => (CommandResult.failure "Node not found", hm, s)
  | some node =>
    hmExecute hm (.moveNode node_id node.lon node.lat new_lon new_lat) s

/-! ## Render features (`render_feature.rs`) -/

/-- `calculate_z_order` from `render_feature.rs` (`i16` arithmetic cannot
overflow here: each summand is bounded by 500). -/
def calculate_z_order (feature : ℕ) (layer : Int) : Int :=
  let base_type := feature % 256
  let layer_z : Int := layer * 100
  let type_z : Int :=
    if base_type = 30 ∨ base_type = 31 ∨ base_type = 32 then -30
    else if base_type = 51 then -35
    else if base_type = 60 ∨ base_type = 52 then -20
    else if base_type = 50 then -15
    else if base_type = 40 then -10
    else if base_type = 4 ∨ base_type = 5 then 0
    else if base_type = 3 then 5
    else if base_type = 2 then 10
    else if base_type = 1 then 15
    else if base_type = 20 ∨ base_type = 21 then 20
    else if base_type = 70 then 50
    else 0
  let flag_z : Int :=
    if feature &&& 512 ≠ 0 then -40
    else if feature &&& 256 ≠ 0 then 40
    else 0
  layer_z + type_z + flag_z

/-! ## Polygon assembler (`polygon_assembler.rs`) -/

/-- The tag-scanning loop of `is_area_way`: the first decisive tag determines
the result (note the early `return value == "yes"` on the `area` key). -/
def isAreaTagScan : List (String × String) → Bool
  | [] => false
  | (key, value) :: rest =>
    if key = "area" then value == "yes"
    else if key = "building" ∨ key = "landuse" ∨ key = "leisure" ∨ key = "amenity" ∨
        key = "shop" ∨ key = "tourism" ∨ key = "man_made" then
      if value ≠ "no" then true else isAreaTagScan rest
    else if key = "natural" then
      if value ≠ "no" ∧ value ≠ "coastline" ∧ value ≠ "tree_row" then true
      else isAreaTagScan rest
    else if key = "waterway" then
      if value = "riverbank" ∨ value = "dock" ∨ value = "boatyard" then true
      else isAreaTagScan rest
    else isAreaTagScan rest

/-- `is_area_way` from `polygon_assembler.rs`: closedness check, then the tag
scan. -/
def is_area_way (tags : List (String × String)) (node_refs : List Int) : Bool :=
  if node_refs.length < 4 then false
  else if node_refs.head? ≠ node_refs.getLast? then false
  else isAreaTagScan tags

/-- `AssembledPolygon`.  The struct literal in `polygon_assembler.rs` omits
`way_id`, yet `encode_polygons_geometry` serialises `polygon.way_id`; the field
is therefore modelled here (carrying the assembling way's id, per the
protocol's layout where relation-sourced polygons carry 0). -/
structure AssembledPolygon where
  way_id : Int
  render_feature : ℕ
  layer : Int
  rings : List (List (ℚ × ℚ))
deriving DecidableEq

/-- `assemble_from_closed_way`: closedness check, project the present nodes
(`proj` abstracts `lonlat_to_mercator`), reject rings with fewer than 4
projected points. -/
def assemble_from_closed_way (proj : ℚ → ℚ → ℚ × ℚ) (s : OsmStore) (way_id : Int) :
    Option AssembledPolygon :=
  match mapGet s.ways way_id with
  | none => none
  | some way =>
    if way.node_refs.length < 4 then none
    else if way.node_refs.head? ≠ way.node_refs.getLast? then none
    else
      let coords := way.node_refs.filterMap (fun nid =>
        (mapGet s.nodes nid).map (fun n => proj n.lon n.lat))
      if coords.length < 4 then none
      else some { way_id := way_id, render_feature := way.render_feature
                  layer := way.layer, rings := [coords] }

/-! ## Viewport query (`spatial_query.rs`) -/

/-- `NodeWithPriority` from `spatial_query.rs`. -/
structure NodeWithPriority where
  id : Int
  lon : ℚ
  lat : ℚ
  ref_count : ℕ
deriving DecidableEq

/-- `Viewport` (the `zoom: f32` is modelled as `ℚ`). -/
structure Viewport where
  min_lon : ℚ
  min_lat : ℚ
  max_lon : ℚ
  max_lat : ℚ
  zoom : ℚ

/-- Rust's saturating `f32 as u32` cast applied to the zoom (negative values
clamp to 0, values above `u32::MAX` clamp to the maximum; `Int.toNat` realises
the lower clamp). -/
def zoomToU32 (z : ℚ) : ℕ := min z.floor.toNat 4294967295

/-- `get_render_limits`: (max render nodes, max ways) per zoom band. -/
def get_render_limits (zoom : ℚ) : ℕ × ℕ :=
  let z := zoomToU32 zoom
  if z ≤ 8 then (10000, 5000)
  else if z ≤ 11 then (30000, 15000)
  else if z ≤ 14 then (80000, 40000)
  else if z ≤ 17 then (150000, 80000)
  else if z ≤ 21 then (300000, 150000)
  else if z ≤ 24 then (500000, 250000)
  else (800000, 400000)

/-- `NodeLodConfig` from `spatial_query.rs`. -/
structure NodeLodConfig where
  show_nodes : Bool
  min_ref_count : ℕ
  max_nodes : ℕ
deriving DecidableEq

/-- `get_node_lod_config`. -/
def get_node_lod_config (zoom : ℚ) : NodeLodConfig :=
  let z := zoomToU32 zoom
  if z ≤ 17 then { show_nodes := false, min_ref_count := 0, max_nodes := 0 }
  else if z ≤ 19 then { show_nodes := true, min_ref_count := 2, max_nodes := 50000 }
  else if z ≤ 21 then { show_nodes := true, min_ref_count := 0, max_nodes := 100000 }
  else { show_nodes := true, min_ref_count := 0, max_nodes := 300000 }

/-- Closed-AABB intersection test of `rstar` for an entry's envelope against
the query box (`AABB::from_corners` normalises each corner pair). -/
def envIntersects (e : SpatialEntry) (min_lon min_lat max_lon max_lat : ℚ) : Bool :=
  let qlo1 := min min_lon max_lon
  let qhi1 := max min_lon max_lon
  let qlo2 := min min_lat max_lat
  let qhi2 := max min_lat max_lat
  let elo1 := min e.min_lon e.max_lon
  let ehi1 := max e.min_lon e.max_lon
  let elo2 := min e.min_lat e.max_lat
  let ehi2 := max e.min_lat e.max_lat
  elo1 ≤ qhi1 ∧ qlo1 ≤ ehi1 ∧ elo2 ≤ qhi2 ∧ qlo2 ≤ ehi2

/-- `OsmStore::query_nodes_in_viewport`: range search on the node R-tree, then
resolve each hit in the nodes map. -/
def query_nodes_in_viewport (s : OsmStore) (min_lon min_lat max_lon max_lat : ℚ) :
    List OsmNode :=
  s.node_index.filterMap (fun e =>
    if envIntersects e min_lon min_lat max_lon max_lat then mapGet s.nodes e.id else none)

/-- `OsmStore::query_way_ids_in_viewport`. -/
def query_way_ids_in_viewport (s : OsmStore) (min_lon min_lat max_lon max_lat : ℚ) :
    List Int :=
  (s.way_index.filter (fun e => envIntersects e min_lon min_lat max_lon max_lat)).map
    (fun e => e.id)

/-- `ViewportQueryResult` from `spatial_query.rs`. -/
structure ViewportQueryResult where
  nodes : List NodeWithPriority
  way_ids : List Int
  polygons : List AssembledPolygon
  truncated : Bool

/-- The node-side LOD pipeline of `query_viewport`: attach ref-counts, drop
nodes below the threshold. -/
def prioritizedNodes (s : OsmStore) (vp : Viewport) (min_ref_count : ℕ) :
    List NodeWithPriority :=
  (query_nodes_in_viewport s vp.min_lon vp.min_lat vp.max_lon vp.max_lat).filterMap
    (fun node =>
      let rc := s.node_ref_count node.id
      if min_ref_count ≤ rc then
        some { id := node.id, lon := node.lon, lat := node.lat, ref_count := rc }
      else none)

/-- The descending-by-ref-count comparison of `query_viewport`
(`b.ref_count.cmp(&a.ref_count)`); `Vec::sort_by` is stable, as is
`List.mergeSort` with this relation. -/
def refCountDesc (a b : NodeWithPriority) : Bool := b.ref_count ≤ a.ref_count

/-- `query_viewport` from `spatial_query.rs`. -/
def query_viewport (proj : ℚ → ℚ → ℚ × ℚ) (s : OsmStore) (vp : Viewport) :
    ViewportQueryResult :=
  let max_ways := (get_render_limits vp.zoom).2
  let node_lod := get_node_lod_config vp.zoom
  let nodes :=
    if node_lod.show_nodes then
      (prioritizedNodes s vp node_lod.min_ref_count).mergeSort refCountDesc
    else []
  let way_ids := query_way_ids_in_viewport s vp.min_lon vp.min_lat vp.max_lon vp.max_lat
  let truncated0 := decide (node_lod.max_nodes < nodes.length)
  let nodes := nodes.take node_lod.max_nodes
  let truncated := truncated0 || decide (max_ways < way_ids.length)
  let way_ids := way_ids.take max_ways
  let line_way_ids := way_ids.filter (fun wid =>
    match mapGet s.ways wid with
    | some w => !w.is_area
    | none => false)
  let area_way_ids := way_ids.filter (fun wid =>
    match mapGet s.ways wid with
    | some w => w.is_area
    | none => false)
  let polygons := area_way_ids.filterMap (fun wid => assemble_from_closed_way proj s wid)
  { nodes := nodes, way_ids := line_way_ids, polygons := polygons, truncated := truncated }

/-! ## Binary protocol (`binary_protocol.rs`)

Bytes are modelled as `ℕ` values; multi-byte integers are spelled out
little-endian.  The 8-byte IEEE-754 serialisation of one `f64` coordinate pair
(16 bytes) is abstracted as a parameter `pointBytes` with a length hypothesis
carried by the theorems. -/

/-- Little-endian bytes of a `u16`. -/
def u16le (n : ℕ) : List ℕ := [n % 256, n / 256 % 256]

/-- Little-endian bytes of a `u32`. -/
def u32le (n : ℕ) : List ℕ :=
  [n % 256, n / 256 % 256, n / 65536 % 256, n / 16777216 % 256]

/-- Little-endian bytes of an `i64` (two's complement). -/
def i64le (i : Int) : List ℕ :=
  let n := (i % 18446744073709551616).toNat
  [n % 256, n / 256 % 256, n / 65536 % 256, n / 16777216 % 256,
   n / 4294967296 % 256, n / 1099511627776 % 256,
   n / 281474976710656 % 256, n / 72057594037927936 % 256]

/-- `u32::from_le_bytes` on the first four bytes of a buffer (used by
`build_viewport_response_v4` to re-read the counts). -/
def readU32le (l : List ℕ) : ℕ :=
  match l with
  | b0 :: b1 :: b2 :: b3 :: _ => b0 + b1 * 256 + b2 * 65536 + b3 * 16777216
  | _ => 0

/-- The per-way record collected by `encode_ways_geometry` before sorting. -/
structure WayData where
  way_id : Int
  render_feature : ℕ
  z_order : Int
  coords : List (ℚ × ℚ)

/-- The collection phase of `encode_ways_geometry`: resolve each way id, skip
missing ways, project the present nodes, skip ways with fewer than two points. -/
def waysData (proj : ℚ → ℚ → ℚ × ℚ) (s : OsmStore) (way_ids : List Int) : List WayData :=
  way_ids.filterMap (fun wid =>
    match mapGet s.ways wid with
    | none => none
    | some way =>
      let coords := way.node_refs.filterMap (fun nid =>
        (mapGet s.nodes nid).map (fun n => proj n.lon n.lat))
      if coords.length < 2 then none
      else some { way_id := wid, render_feature := way.render_feature
                  z_order := calculate_z_order way.render_feature way.layer
                  coords := coords })

/-- `encode_ways_geometry`: collect, sort ascending by z-order (stable), then
serialise `[total_ways][way_id][render_feature][point_count][points]...`. -/
def encode_ways_geometry (proj : ℚ → ℚ → ℚ × ℚ) (pointBytes : ℚ × ℚ → List ℕ)
    (s : OsmStore) (way_ids : List Int) : List ℕ :=
  let sorted := (waysData proj s way_ids).mergeSort (fun a b => a.z_order ≤ b.z_order)
  u32le sorted.length ++ sorted.flatMap (fun wd =>
    i64le wd.way_id ++ u16le wd.render_feature ++ u32le wd.coords.length ++
      wd.coords.flatMap pointBytes)

/-- `encode_polygons_geometry`: sort by z-order (stable), then serialise
`[polygon_count]` followed per polygon by
`[way_id][render_feature][ring_count]` and per ring `[point_count][points]`. -/
def encode_polygons_geometry (pointBytes : ℚ × ℚ → List ℕ)
    (polygons : List AssembledPolygon) : List ℕ :=
  let sorted := polygons.mergeSort (fun a b =>
    calculate_z_order a.render_feature a.layer ≤ calculate_z_order b.render_feature b.layer)
  u32le sorted.length ++ sorted.flatMap (fun p =>
    i64le p.way_id ++ u16le p.render_feature ++ u16le p.rings.length ++
      p.rings.flatMap (fun ring => u32le ring.length ++ ring.flatMap pointBytes))

/-- `encode_priority_nodes`: 32 bytes per node,
`[node_id][x][y][ref_count][_pad][_pad2]`, with `(x, y)` the projected
position. -/
def encode_priority_nodes (proj : ℚ → ℚ → ℚ × ℚ) (pointBytes : ℚ × ℚ → List ℕ)
    (nodes : List NodeWithPriority) : List ℕ :=
  nodes.flatMap (fun n =>
    i64le n.id ++ pointBytes (proj n.lon n.lat) ++ u16le n.ref_count ++
      u16le 0 ++ u32le 0)

/-- `build_viewport_response_v4`: 16-byte header, node block, way block,
polygon block; the way/polygon counts in the header are re-read from the first
four bytes of the respective blocks. -/
def build_viewport_response_v4 (proj : ℚ → ℚ → ℚ × ℚ) (pointBytes : ℚ × ℚ → List ℕ)
    (s : OsmStore) (nodes : List NodeWithPriority) (way_ids : List Int)
    (polygons : List AssembledPolygon) (truncated : Bool) : List ℕ :=
  let way_data := encode_ways_geometry proj pointBytes s way_ids
  let node_data := encode_priority_nodes proj pointBytes nodes
  let polygon_data := encode_polygons_geometry pointBytes polygons
  let actual_way_count := if 4 ≤ way_data.length then readU32le way_data else 0
  let actual_polygon_count := if 4 ≤ polygon_data.length then readU32le polygon_data else 0
  u32le (nodes.length % 4294967296) ++ u32le actual_way_count ++
    u32le actual_polygon_count ++ u32le (if truncated then 1 else 0) ++
    node_data ++ way_data ++ polygon_data

/-- `query_viewport_full` from `commands/query.rs`. -/
def query_viewport_full (proj : ℚ → ℚ → ℚ × ℚ) (pointBytes : ℚ × ℚ → List ℕ)
    (s : OsmStore) (vp : Viewport) : List ℕ :=
  let result := query_viewport proj s vp
  build_viewport_response_v4 proj pointBytes s result.nodes result.way_ids
    result.polygons result.truncated

/-! ## Spec-side rule table for the is-area predicate -/

/-- What a single tag contributes to the is-area decision, per the spec's rule
set: the `area` key decides immediately (yes/no), the listed implied-area keys
decide yes when their value qualifies and otherwise leave the decision open. -/
inductive TagVerdict where
  | yes
  | no
  | open_
deriving DecidableEq

/-- The verdict of one tag under the spec's rule set. -/
def tagVerdict (kv : String × String) : TagVerdict :=
  if kv.1 = "area" then (if kv.2 = "yes" then .yes else .no)
  else if kv.1 = "building" ∨ kv.1 = "landuse" ∨ kv.1 = "leisure" ∨ kv.1 = "amenity" ∨
      kv.1 = "shop" ∨ kv.1 = "tourism" ∨ kv.1 = "man_made" then
    (if kv.2 ≠ "no" then .yes else .open_)
  else if kv.1 = "natural" then
    (if kv.2 ≠ "no" ∧ kv.2 ≠ "coastline" ∧ kv.2 ≠ "tree_row" then .yes else .open_)
  else if kv.1 = "waterway" then
    (if kv.2 = "riverbank" ∨ kv.2 = "dock" ∨ kv.2 = "boatyard" then .yes else .open_)
  else .open_

/-! ## Store mutation sequences (for the ref-count invariant) -/

/-- The store mutations named by the ref-count invariant claim. -/
inductive StoreOp where
  | insertWayOp (w : OsmWay)
  | addWayOp (w : OsmWay)
  | removeWayOp (way_id : Int)
  | removeFromWayOp (way_id node_id : Int)
  | insertToWayOp (way_id node_id : Int) (indices : List ℕ)

/-- Apply one mutation (dropping the returned values). -/
def applyOp : StoreOp → OsmStore → OsmStore
  | .insertWayOp w, s => insert_way s w
  | .addWayOp w, s => add_way_with_index s w
  | .removeWayOp wid, s => (remove_way_with_index s wid).2
  | .removeFromWayOp wid nid, s => (remove_node_from_way s wid nid).2
  | .insertToWayOp wid nid idxs, s => insert_node_to_way s wid nid idxs

/-- Apply a sequence of mutations. -/
def applyOps (ops : List StoreOp) (s : OsmStore) : OsmStore :=
  ops.foldl (fun s op => applyOp op s) s

/-- The number of (way, position) pairs at which node `n` appears, summed
across all ways currently in the store. -/
def occCount (ways : List (Int × OsmWay)) (n : Int) : ℕ :=
  (ways.map (fun p => p.2.node_refs.count n)).sum

/-- The ref-count bookkeeping invariant, together with the two facts the
bookkeeping itself relies on: way keys are unique (`DashMap` semantics) and no
count has reached `u16` saturation. -/
def StoreInv (s : OsmStore) : Prop :=
  (s.ways.map Prod.fst).Nodup ∧
  (∀ n, s.node_ref_count n = occCount s.ways n) ∧
  (∀ n, occCount s.ways n ≤ 65535)

/-- Well-formedness of a single mutation: way insertions use a fresh id and
stay below saturation; `insert_node_to_way` targets an existing way at
in-range positions (its intended use, undoing a removal) and stays below
saturation. -/
def opPre : StoreOp → OsmStore → Prop
  | .insertWayOp w, s =>
    mapGet s.ways w.id = none ∧ ∀ n, occCount s.ways n + w.node_refs.count n ≤ 65535
  | .addWayOp w, s =>
    mapGet s.ways w.id = none ∧ ∀ n, occCount s.ways n + w.node_refs.count n ≤ 65535
  | .removeWayOp _, _ => True
  | .removeFromWayOp _ _, _ => True
  | .insertToWayOp wid nid idxs, s =>
    ∃ w, mapGet s.ways wid = some w ∧ (∀ i ∈ idxs, i ≤ w.node_refs.length) ∧
      occCount s.ways nid + idxs.length ≤ 65535

/-- Well-formedness of a mutation sequence, each op judged at its own state. -/
def opsPre : List StoreOp → OsmStore → Prop
  | [], _ => True
  | op :: rest, s => opPre op s ∧ opsPre rest (applyOp op s)

/-! ## Concrete scenarios -/

/-- Node 5 of the delete-cascade scenario. -/
def cascadeNode5 : OsmNode := { id := 5, lat := 20, lon := 10, tags := [] }

/-- Node 6 of the delete-cascade scenario. -/
def cascadeNode6 : OsmNode := { id := 6, lat := 40, lon := 30, tags := [] }

/-- The way `W = [5, 6]` of the delete-cascade scenario. -/
def cascadeWay : OsmWay :=
  { id := 100, node_refs := [5, 6], tags := [], render_feature := 0
    layer := 0, is_area := false }

/-- Initial store of the delete-cascade scenario: nodes 5 and 6 present, way
`W = [5, 6]`, indices built. -/
def cascadeStore : OsmStore :=
  rebuild_indices (insert_way (insert_node (insert_node OsmStore.new cascadeNode5)
    cascadeNode6) cascadeWay)

/-- Initial store of the move-undo scenario: node 7 at `(lon 1, lat 2)`, a
second node 8 at arbitrary coordinates, and the way `W = [7, 8]`, indices
built. -/
def moveStore (lon8 lat8 : ℚ) : OsmStore :=
  rebuild_indices (insert_way (insert_node (insert_node OsmStore.new
    { id := 7, lat := 2, lon := 1, tags := [] })
    { id := 8, lat := lat8, lon := lon8, tags := [] })
    { id := 200, node_refs := [7, 8], tags := [], render_feature := 0
      layer := 0, is_area := false })

/-- A sample assembled polygon (one 4-point ring) used as a concrete witness
input for the binary-layout theorem. -/
def samplePolygon : AssembledPolygon :=
  { way_id := 7, render_feature := 3, layer := 0
    rings := [[(1, 2), (3, 4), (5, 6), (1, 2)]] }

/-! ## Ideal-arithmetic projection (`projection.rs` over ℝ)

The source computes the Web-Mercator projection on IEEE-754 doubles; the
rounding of `tan`/`ln`/`exp`/`atan` is outside this embedding.  The same
formulas over ℝ are stated here to record that the round-trip is exact in
ideal arithmetic. -/

/-- `lonlat_to_mercator` over ℝ (with the source's latitude clamp). -/
noncomputable def lonlat_to_mercator_ideal (lon lat : ℝ) : ℝ × ℝ :=
  let lat_clamped := max (-85.051129) (min lat 85.051129)
  (lon * 20037508.342789244 / 180,
   Real.log (Real.tan ((90 + lat_clamped) * Real.pi / 360)) * 20037508.342789244 / Real.pi)

/-- `mercator_to_lonlat` over ℝ. -/
noncomputable def mercator_to_lonlat_ideal (x y : ℝ) : ℝ × ℝ :=
  (x * 180 / 20037508.342789244,
   (2 * Real.arctan (Real.exp (y * Real.pi / 20037508.342789244)) - Real.pi / 2) *
     180 / Real.pi)

/-! # Theorems -/

/-- The tag-scanning loop returns true exactly when the first decisive tag
verdict (in list order) is `yes`. -/
theorem isAreaTagScan_eq_find (tags : List (String × String)) :
    isAreaTagScan tags =
      decide ((tags.map tagVerdict).find? (fun v => decide (v ≠ TagVerdict.open_)) =
        some TagVerdict.yes) := by
  induction tags with
  | nil => simp [isAreaTagScan]
  | cons kv rest ih =>
    obtain ⟨key, value⟩ := kv
    by_cases h1 : key = "area"
    · subst h1
      by_cases h2 : value = "yes" <;>
        simp [isAreaTagScan, tagVerdict, h2]
    · by_cases h2 : key = "building" ∨ key = "landuse" ∨ key = "leisure" ∨ key = "amenity" ∨
          key = "shop" ∨ key = "tourism" ∨ key = "man_made"
      · by_cases h3 : value = "no" <;>
          simp [isAreaTagScan, tagVerdict, h1, h2, h3, ih]
      · by_cases h4 : key = "natural"
        · by_cases h5 : value ≠ "no" ∧ value ≠ "coastline" ∧ value ≠ "tree_row" <;>
            simp [isAreaTagScan, tagVerdict, h1, h2, h4, h5, ih]
        · by_cases h6 : key = "waterway"
          · by_cases h7 : value = "riverbank" ∨ value = "dock" ∨ value = "boatyard" <;>
              simp [isAreaTagScan, tagVerdict, h1, h2, h4, h6, h7, ih]
          · simp [isAreaTagScan, tagVerdict, h1, h2, h4, h6, ih]

/-- C5, counterexample: `is_area_way` is not order-independent in the tag
list.  On the same tag multiset `{area=no, building=yes}` and a closed ring,
it returns `false` when `area` comes first (early return on the `area` key)
and `true` when `building` comes first. -/
theorem c5_counterexample :
    is_area_way [("area", "no"), ("building", "yes")] [1, 2, 3, 4, 1] = false ∧
    is_area_way [("building", "yes"), ("area", "no")] [1, 2, 3, 4, 1] = true ∧
    List.Perm [(("area", "no") : String × String), ("building", "yes")]
      [("building", "yes"), ("area", "no")] := by
  refine ⟨by decide, by decide, ?_⟩
  exact List.Perm.swap _ _ _

/-- C5, amended: `is_area_way` returns true iff `node_refs.len() ≥ 4`,
`first = last`, and the FIRST decisive tag in list order yields `yes` under
the rule set (`area` decides yes/no immediately;
`building|landuse|leisure|amenity|shop|tourism|man_made` with value ≠ `no`,
`natural` with value ∉ {no, coastline, tree_row}, and
`waterway ∈ {riverbank, dock, boatyard}` decide yes and otherwise leave the
scan open; any other key, `highway` included, leaves the scan open). -/
theorem c5_is_area_first_decisive (tags : List (String × String)) (refs : List Int) :
    is_area_way tags refs = true ↔
      4 ≤ refs.length ∧ refs.head? = refs.getLast? ∧
      (tags.map tagVerdict).find? (fun v => decide (v ≠ TagVerdict.open_)) =
        some TagVerdict.yes := by
  unfold is_area_way
  rw [isAreaTagScan_eq_find]
  by_cases h1 : refs.length < 4
  · simp only [if_pos h1]
    constructor
    · intro h; cases h
    · intro h; omega
  · by_cases h2 : refs.head? = refs.getLast?
    · simp [h1, h2]
      omega
    · simp [h1, h2]

/-- On a freshly created store every viewport query serialises to the 24 zero
bytes (empty header, `total_ways = 0`, `total_polygons = 0`). -/
theorem query_viewport_full_new (proj : ℚ → ℚ → ℚ × ℚ) (pb : ℚ × ℚ → List ℕ)
    (vp : Viewport) :
    query_viewport_full proj pb OsmStore.new vp = List.replicate 24 0 := by
  have hn : prioritizedNodes OsmStore.new vp (get_node_lod_config vp.zoom).min_ref_count = []
    := rfl
  have hw : query_way_ids_in_viewport OsmStore.new vp.min_lon vp.min_lat vp.max_lon vp.max_lat
      = [] := rfl
  unfold query_viewport_full query_viewport
  simp only [hn, hw, List.mergeSort_nil, ite_self, List.take_nil, List.filter_nil,
    List.filterMap_nil, List.length_nil, Nat.not_lt_zero, decide_False, Bool.or_self]
  simp only [build_viewport_response_v4, encode_ways_geometry, waysData,
    encode_polygons_geometry, encode_priority_nodes, List.filterMap_nil,
    List.mergeSort_nil, List.flatMap_nil, List.length_nil]
  decide

/-- C2, counterexample: on a freshly created store, `query_viewport_full`
returns a 24-byte buffer, not a 36-byte one. -/
theorem c2_counterexample :
    (query_viewport_full (fun a b => (a, b)) (fun _ => List.replicate 16 0)
      OsmStore.new
      { min_lon := 0, min_lat := 0, max_lon := 1, max_lat := 1, zoom := 16 }).length = 24 ∧
    (query_viewport_full (fun a b => (a, b)) (fun _ => List.replicate 16 0)
      OsmStore.new
      { min_lon := 0, min_lat := 0, max_lon := 1, max_lat := 1, zoom := 16 }).length ≠ 36 := by
  rw [query_viewport_full_new]
  decide

/-- C2, amended: for every viewport and every projection / float
serialisation, `query_viewport_full` on a freshly created store returns
exactly 24 zero bytes: a 16-byte header with `node_count = way_count =
polygon_count = truncated = 0`, then `total_ways = 0` as a `u32`, then
`total_polygons = 0` as a `u32`. -/
theorem c2_empty_store_response (proj : ℚ → ℚ → ℚ × ℚ)
    (pointBytes : ℚ × ℚ → List ℕ) (vp : Viewport) :
    query_viewport_full proj pointBytes OsmStore.new vp = List.replicate 24 0 :=
  query_viewport_full_new proj pointBytes vp

/-- C9: when the popped command's `undo` fails, `HistoryManager::undo` returns
the failure result, drops the command from the undo stack, and pushes it onto
neither stack (the undo count decreases by one and the command is permanently
discarded), while the store is left as the failed `undo` left it. -/
theorem c9_failed_undo_discards_command (hm : HistoryManager) (s : OsmStore)
    (cmd : Command) (rest : List Command) (hstack : hm.undo_stack = cmd :: rest)
    (hfail : (undoCmd cmd s).1.success = false) :
    (hmUndo hm s).1 = (undoCmd cmd s).1 ∧
    (hmUndo hm s).2.1.undo_stack = rest ∧
    (hmUndo hm s).2.1.redo_stack = hm.redo_stack ∧
    (hmUndo hm s).2.1.undo_stack.length + 1 = hm.undo_stack.length ∧
    (hmUndo hm s).2.2 = (undoCmd cmd s).2 := by
  simp [hmUndo, hstack, hfail]

/-- Witness for C9 at a concrete input: undoing an `UpdateNodeTagsCommand` on
an empty store fails (node not found), and the command is discarded. -/
theorem c9_witness :
    ({ undo_stack := [Command.updateNodeTags 1 [] []], redo_stack := [] }
        : HistoryManager).undo_stack = Command.updateNodeTags 1 [] [] :: [] ∧
    (undoCmd (Command.updateNodeTags 1 [] []) OsmStore.new).1.success = false ∧
    (hmUndo { undo_stack := [Command.updateNodeTags 1 [] []], redo_stack := [] }
      OsmStore.new).2.1.undo_stack = [] :=
  ⟨rfl, by decide,
    (c9_failed_undo_discards_command
      { undo_stack := [Command.updateNodeTags 1 [] []], redo_stack := [] }
      OsmStore.new (Command.updateNodeTags 1 [] []) [] rfl (by decide)).2.1⟩

/-- C1: evaluation of the delete-node cascade at the claim's scenario.  The
delete half behaves exactly as claimed (node 6 removed, `W` removed from the
store and the way index, `cascaded_way_ids = [100]`); the undo half restores
node 6, `W`, and both R-tree entry sets, but re-adds the cascaded way with its
full original `node_refs` and then re-inserts node 6 at its recorded position,
leaving `W.node_refs = [5, 6, 6]` and `node_ref_count[6] = 2` instead of the
pre-delete `[5, 6]` and `1`. -/
theorem c1_delete_node_cascade_undo :
    (delete_node cascadeStore HistoryManager.new 6).1 =
      { success := true, message := none, cascaded_way_ids := [100] } ∧
    mapGet (delete_node cascadeStore HistoryManager.new 6).2.2.nodes 6 = none ∧
    mapGet (delete_node cascadeStore HistoryManager.new 6).2.2.ways 100 = none ∧
    (delete_node cascadeStore HistoryManager.new 6).2.2.way_index = [] ∧
    (hmUndo (delete_node cascadeStore HistoryManager.new 6).2.1
        (delete_node cascadeStore HistoryManager.new 6).2.2).1.success = true ∧
    mapGet (hmUndo (delete_node cascadeStore HistoryManager.new 6).2.1
        (delete_node cascadeStore HistoryManager.new 6).2.2).2.2.nodes 6 =
      some cascadeNode6 ∧
    (hmUndo (delete_node cascadeStore HistoryManager.new 6).2.1
        (delete_node cascadeStore HistoryManager.new 6).2.2).2.2.node_index =
      cascadeStore.node_index ∧
    (hmUndo (delete_node cascadeStore HistoryManager.new 6).2.1
        (delete_node cascadeStore HistoryManager.new 6).2.2).2.2.way_index =
      cascadeStore.way_index ∧
    (mapGet (hmUndo (delete_node cascadeStore HistoryManager.new 6).2.1
        (delete_node cascadeStore HistoryManager.new 6).2.2).2.2.ways 100).map
      OsmWay.node_refs = some [5, 6, 6] ∧
    (hmUndo (delete_node cascadeStore HistoryManager.new 6).2.1
        (delete_node cascadeStore HistoryManager.new 6).2.2).2.2.node_ref_count 6 = 2 := by
  decide

/-- C7: move-undo round trip.  For arbitrary coordinates of node 8 and an
arbitrary move target (the Mercator target is abstracted by its converted
lon/lat), `move_node(7, ...)` followed by `undo` succeeds, returns node 7
exactly to `(lon 1, lat 2)`, leaves the node R-tree with exactly one entry for
node 7 at that position, and returns the way R-tree entry of `W = [7, 8]` to
its original bbox. -/
theorem c7_move_undo_round_trip (lon8 lat8 newLon newLat : ℚ) :
    (move_node (moveStore lon8 lat8) HistoryManager.new 7 newLon newLat).1.success = true ∧
    (hmUndo (move_node (moveStore lon8 lat8) HistoryManager.new 7 newLon newLat).2.1
      (move_node (moveStore lon8 lat8) HistoryManager.new 7 newLon newLat).2.2).1.success
      = true ∧
    mapGet (hmUndo (move_node (moveStore lon8 lat8) HistoryManager.new 7 newLon newLat).2.1
      (move_node (moveStore lon8 lat8) HistoryManager.new 7 newLon newLat).2.2).2.2.nodes 7 =
      some { id := 7, lat := 2, lon := 1, tags := [] } ∧
    ((hmUndo (move_node (moveStore lon8 lat8) HistoryManager.new 7 newLon newLat).2.1
      (move_node (moveStore lon8 lat8) HistoryManager.new 7
        newLon newLat).2.2).2.2.node_index.filter (fun e => e.id == 7)) =
      [{ id := 7, min_lon := 1, min_lat := 2, max_lon := 1, max_lat := 2 }] ∧
    (hmUndo (move_node (moveStore lon8 lat8) HistoryManager.new 7 newLon newLat).2.1
      (move_node (moveStore lon8 lat8) HistoryManager.new 7 newLon newLat).2.2).2.2.way_index =
      (moveStore lon8 lat8).way_index := by
  simp [move_node, moveStore, rebuild_indices, insert_node, insert_way, OsmStore.new,
    mapInsert, mapGet, mapAdjust, compute_way_bbox, hmExecute, hmUndo, applyCmd, undoCmd,
    update_node_position, removeEntry, update_way_rtree, find_ways_referencing_node,
    bumpRefCounts, upd, List.find?, List.filter, CommandResult.ok, CommandResult.failure]

/-- Cons unfolding of `mapGet`. -/
theorem mapGet_cons {α : Type} (pk : Int) (pv : α) (m : List (Int × α)) (k : Int) :
    mapGet ((pk, pv) :: m) k = if pk = k then some pv else mapGet m k := by
  simp only [mapGet, List.find?]
  by_cases h : pk = k
  · have hb : (pk == k) = true := by simp [h]
    rw [hb]
    simp [h]
  · have hb : (pk == k) = false := by simp [h]
    rw [hb]
    simp [h]

/-- Cons unfolding of `mapAdjust`. -/
theorem mapAdjust_cons {α : Type} (pk : Int) (pv : α) (m : List (Int × α)) (j : Int)
    (f : α → α) :
    mapAdjust ((pk, pv) :: m) j f =
      (if pk = j then (pk, f pv) else (pk, pv)) :: mapAdjust m j f := by
  by_cases h : pk = j <;> simp [mapAdjust, h]

/-- Lookup after adjusting a different key. -/
theorem mapGet_mapAdjust_ne {α : Type} (m : List (Int × α)) (j k : Int) (f : α → α)
    (h : k ≠ j) : mapGet (mapAdjust m j f) k = mapGet m k := by
  induction m with
  | nil => rfl
  | cons p m ih =>
    obtain ⟨pk, pv⟩ := p
    rw [mapAdjust_cons]
    by_cases hpj : pk = j
    · subst hpj
      rw [if_pos rfl, mapGet_cons, mapGet_cons, ih,
        if_neg (Ne.symm h), if_neg (Ne.symm h)]
    · rw [if_neg hpj, mapGet_cons, mapGet_cons, ih]

/-- Lookup after adjusting the looked-up key. -/
theorem mapGet_mapAdjust_self {α : Type} (m : List (Int × α)) (j : Int) (f : α → α)
    (v : α) (h : mapGet m j = some v) :
    mapGet (mapAdjust m j f) j = some (f v) := by
  induction m with
  | nil => simp [mapGet] at h
  | cons p m ih =>
    obtain ⟨pk, pv⟩ := p
    rw [mapAdjust_cons]
    by_cases hpj : pk = j
    · subst hpj
      rw [mapGet_cons, if_pos rfl] at h
      rw [if_pos rfl, mapGet_cons, if_pos rfl]
      obtain rfl := Option.some.inj h
      rfl
    · rw [mapGet_cons, if_neg hpj] at h
      rw [if_neg hpj, mapGet_cons, if_neg hpj]
      exact ih h

/-- C10: `UpdateWayTagsCommand::apply` and `::undo` mutate only the `tags`,
`render_feature`, `layer` and `is_area` fields of the addressed way.  The
way's `id` and `node_refs`, every other way, the nodes, relations, the
ref-count map, and both R-tree indices are untouched (in particular the way
R-tree is not updated even when `is_area` changes); when the way is absent
the store is unchanged. -/
theorem c10_update_way_tags_frame (way_id : Int)
    (old_tags new_tags : List (String × String)) (old_rf new_rf : ℕ)
    (old_layer new_layer : Int) (old_ia new_ia : Bool) (s : OsmStore) :
    ((applyCmd (.updateWayTags way_id old_tags new_tags old_rf new_rf old_layer
        new_layer old_ia new_ia) s).2.nodes = s.nodes ∧
     (applyCmd (.updateWayTags way_id old_tags new_tags old_rf new_rf old_layer
        new_layer old_ia new_ia) s).2.relations = s.relations ∧
     (applyCmd (.updateWayTags way_id old_tags new_tags old_rf new_rf old_layer
        new_layer old_ia new_ia) s).2.node_ref_count = s.node_ref_count ∧
     (applyCmd (.updateWayTags way_id old_tags new_tags old_rf new_rf old_layer
        new_layer old_ia new_ia) s).2.node_index = s.node_index ∧
     (applyCmd (.updateWayTags way_id old_tags new_tags old_rf new_rf old_layer
        new_layer old_ia new_ia) s).2.way_index = s.way_index ∧
     (∀ k, k ≠ way_id →
        mapGet (applyCmd (.updateWayTags way_id old_tags new_tags old_rf new_rf old_layer
          new_layer old_ia new_ia) s).2.ways k = mapGet s.ways k) ∧
     (∀ w, mapGet s.ways way_id = some w →
        mapGet (applyCmd (.updateWayTags way_id old_tags new_tags old_rf new_rf old_layer
          new_layer old_ia new_ia) s).2.ways way_id =
          some { w with tags := new_tags, render_feature := new_rf
                        layer := new_layer, is_area := new_ia }) ∧
     (mapGet s.ways way_id = none →
        (applyCmd (.updateWayTags way_id old_tags new_tags old_rf new_rf old_layer
          new_layer old_ia new_ia) s).2 = s)) ∧
    ((undoCmd (.updateWayTags way_id old_tags new_tags old_rf new_rf old_layer
        new_layer old_ia new_ia) s).2.nodes = s.nodes ∧
     (undoCmd (.updateWayTags way_id old_tags new_tags old_rf new_rf old_layer
        new_layer old_ia new_ia) s).2.relations = s.relations ∧
     (undoCmd (.updateWayTags way_id old_tags new_tags old_rf new_rf old_layer
        new_layer old_ia new_ia) s).2.node_ref_count = s.node_ref_count ∧
     (undoCmd (.updateWayTags way_id old_tags new_tags old_rf new_rf old_layer
        new_layer old_ia new_ia) s).2.node_index = s.node_index ∧
     (undoCmd (.updateWayTags way_id old_tags new_tags old_rf new_rf old_layer
        new_layer old_ia new_ia) s).2.way_index = s.way_index ∧
     (∀ k, k ≠ way_id →
        mapGet (undoCmd (.updateWayTags way_id old_tags new_tags old_rf new_rf old_layer
          new_layer old_ia new_ia) s).2.ways k = mapGet s.ways k) ∧
     (∀ w, mapGet s.ways way_id = some w →
        mapGet (undoCmd (.updateWayTags way_id old_tags new_tags old_rf new_rf old_layer
          new_layer old_ia new_ia) s).2.ways way_id =
          some { w with tags := old_tags, render_feature := old_rf
                        layer := old_layer, is_area := old_ia }) ∧
     (mapGet s.ways way_id = none →
        (undoCmd (.updateWayTags way_id old_tags new_tags old_rf new_rf old_layer
          new_layer old_ia new_ia) s).2 = s)) := by
  cases h : mapGet s.ways way_id with
  | none =>
    simp [applyCmd, undoCmd, h]
  | some w =>
    constructor
    · refine ⟨by simp [applyCmd, h], by simp [applyCmd, h], by simp [applyCmd, h],
        by simp [applyCmd, h], by simp [applyCmd, h], ?_, ?_, ?_⟩
      · intro k hk
        simp only [applyCmd, h]
        exact mapGet_mapAdjust_ne s.ways way_id k _ hk
      · intro w2 hw2
        obtain rfl := Option.some.inj hw2
        simp only [applyCmd, h]
        exact mapGet_mapAdjust_self s.ways way_id _ _ h
      · intro hnone
        exact absurd hnone (by simp)
    · refine ⟨by simp [undoCmd, h], by simp [undoCmd, h], by simp [undoCmd, h],
        by simp [undoCmd, h], by simp [undoCmd, h], ?_, ?_, ?_⟩
      · intro k hk
        simp only [undoCmd, h]
        exact mapGet_mapAdjust_ne s.ways way_id k _ hk
      · intro w2 hw2
        obtain rfl := Option.some.inj hw2
        simp only [undoCmd, h]
        exact mapGet_mapAdjust_self s.ways way_id _ _ h
      · intro hnone
        exact absurd hnone (by simp)

/-- Witness for C10 at a concrete input: updating the tags of the single way
`100` of the cascade scenario leaves the way index untouched and rewrites
exactly the four derived fields, keeping `id` and `node_refs`. -/
theorem c10_witness :
    mapGet cascadeStore.ways 100 = some cascadeWay ∧
    (applyCmd (.updateWayTags 100 [] [("building", "yes")] 0 40 0 0 false true)
      cascadeStore).2.way_index = cascadeStore.way_index ∧
    mapGet (applyCmd (.updateWayTags 100 [] [("building", "yes")] 0 40 0 0 false true)
      cascadeStore).2.ways 100 =
      some { cascadeWay with tags := [("building", "yes")], render_feature := 40
                             layer := 0, is_area := true } :=
  ⟨by decide,
    (c10_update_way_tags_frame 100 [] [("building", "yes")] 0 40 0 0 false true
      cascadeStore).1.2.2.2.2.1,
    (c10_update_way_tags_frame 100 [] [("building", "yes")] 0 40 0 0 false true
      cascadeStore).1.2.2.2.2.2.2.1 cascadeWay (by decide)⟩

/-- Membership in the LOD-filtered node list implies the ref-count bound. -/
theorem mem_prioritized_ref_count {s : OsmStore} {vp : Viewport} {mrc : ℕ}
    (x : NodeWithPriority) (hx : x ∈ prioritizedNodes s vp mrc) : mrc ≤ x.ref_count := by
  unfold prioritizedNodes at hx
  obtain ⟨a, _, hfa⟩ := List.mem_filterMap.1 hx
  by_cases h : mrc ≤ s.node_ref_count a.id
  · simp only [if_pos h] at hfa
    obtain rfl := Option.some.inj hfa
    exact h
  · simp only [if_neg h] at hfa
    cases hfa

/-- The descending ref-count comparison is transitive. -/
theorem refCountDesc_trans : ∀ a b c, refCountDesc a b → refCountDesc b c → refCountDesc a c := by
  intro a b c hab hbc
  simp only [refCountDesc, decide_eq_true_eq] at *
  omega

/-- The descending ref-count comparison is total. -/
theorem refCountDesc_total : ∀ a b, refCountDesc a b || refCountDesc b a := by
  intro a b
  simp only [refCountDesc, Bool.or_eq_true, decide_eq_true_eq]
  omega

/-- C6: at zoom levels whose `u32` cast lies in `[18, 19]`, `query_viewport`
returns only nodes with `ref_count ≥ 2`, sorted descending by ref-count
(stable: the result is a prefix of the stable merge sort of the filtered
list), truncated from the tail to at most 50,000; way ids are truncated to at
most 150,000; the truncated flag is set iff either truncation occurred; and
below zoom 18 the node list is empty. -/
theorem c6_node_lod_zoom18_19 (proj : ℚ → ℚ → ℚ × ℚ) (s : OsmStore) (vp : Viewport) :
    (18 ≤ zoomToU32 vp.zoom → zoomToU32 vp.zoom ≤ 19 →
      (∀ x ∈ (query_viewport proj s vp).nodes, 2 ≤ x.ref_count) ∧
      (query_viewport proj s vp).nodes.Pairwise
        (fun a b => b.ref_count ≤ a.ref_count) ∧
      (query_viewport proj s vp).nodes.length ≤ 50000 ∧
      (∃ rest, (prioritizedNodes s vp 2).mergeSort refCountDesc =
        (query_viewport proj s vp).nodes ++ rest) ∧
      (query_viewport proj s vp).way_ids.length ≤ 150000 ∧
      ((query_viewport proj s vp).truncated = true ↔
        (50000 < (prioritizedNodes s vp 2).length ∨
         150000 < (query_way_ids_in_viewport s vp.min_lon vp.min_lat vp.max_lon
            vp.max_lat).length))) ∧
    (zoomToU32 vp.zoom ≤ 17 → (query_viewport proj s vp).nodes = []) := by
  constructor
  · intro h18 h19
    have hlod : get_node_lod_config vp.zoom =
        { show_nodes := true, min_ref_count := 2, max_nodes := 50000 } := by
      unfold get_node_lod_config
      rw [if_neg (by omega), if_pos (by omega)]
    have hlim : (get_render_limits vp.zoom).2 = 150000 := by
      unfold get_render_limits
      rw [if_neg (by omega), if_neg (by omega), if_neg (by omega), if_neg (by omega),
        if_pos (by omega)]
    have hq : query_viewport proj s vp =
        { nodes := ((prioritizedNodes s vp 2).mergeSort refCountDesc).take 50000
          way_ids := ((query_way_ids_in_viewport s vp.min_lon vp.min_lat vp.max_lon
              vp.max_lat).take 150000).filter (fun wid =>
                match mapGet s.ways wid with
                | some w => !w.is_area
                | none => false)
          polygons := (((query_way_ids_in_viewport s vp.min_lon vp.min_lat vp.max_lon
              vp.max_lat).take 150000).filter (fun wid =>
                match mapGet s.ways wid with
                | some w => w.is_area
                | none => false)).filterMap (fun wid => assemble_from_closed_way proj s wid)
          truncated :=
            decide (50000 < ((prioritizedNodes s vp 2).mergeSort refCountDesc).length) ||
            decide (150000 < (query_way_ids_in_viewport s vp.min_lon vp.min_lat vp.max_lon
              vp.max_lat).length) } := by
      unfold query_viewport
      rw [hlod, hlim]
      rfl
    rw [hq]
    refine ⟨?_, ?_, ?_, ?_, ?_, ?_⟩
    · intro x hx
      exact mem_prioritized_ref_count x
        (List.mem_mergeSort.1 (List.mem_of_mem_take hx))
    · have hp : ((prioritizedNodes s vp 2).mergeSort refCountDesc).Pairwise
          (fun a b => refCountDesc a b = true) :=
        List.sorted_mergeSort refCountDesc_trans refCountDesc_total _
      have := hp.sublist (List.take_sublist 50000 _)
      exact this.imp (fun hab => by
        simp only [refCountDesc, decide_eq_true_eq] at hab
        exact hab)
    · exact List.length_take_le 50000 _
    · exact ⟨((prioritizedNodes s vp 2).mergeSort refCountDesc).drop 50000,
        (List.take_append_drop 50000 _).symm⟩
    · exact le_trans (List.length_filter_le _ _) (List.length_take_le _ _)
    · rw [List.length_mergeSort]
      simp [Bool.or_eq_true, decide_eq_true_eq]
  · intro h17
    have hlod : get_node_lod_config vp.zoom =
        { show_nodes := false, min_ref_count := 0, max_nodes := 0 } := by
      unfold get_node_lod_config
      rw [if_pos (by omega)]
    unfold query_viewport
    rw [hlod]
    simp

/-- Witness for C6 at a concrete input (empty store, zoom 18 and zoom 17). -/
theorem c6_witness :
    (∀ x ∈ (query_viewport (fun a b => (a, b)) OsmStore.new
        { min_lon := 0, min_lat := 0, max_lon := 1, max_lat := 1, zoom := 18 }).nodes,
      2 ≤ x.ref_count) ∧
    (query_viewport (fun a b => (a, b)) OsmStore.new
      { min_lon := 0, min_lat := 0, max_lon := 1, max_lat := 1, zoom := 17 }).nodes = [] :=
  ⟨((c6_node_lod_zoom18_19 (fun a b => (a, b)) OsmStore.new
      { min_lon := 0, min_lat := 0, max_lon := 1, max_lat := 1, zoom := 18 }).1
      (by decide) (by decide)).1,
    (c6_node_lod_zoom18_19 (fun a b => (a, b)) OsmStore.new
      { min_lon := 0, min_lat := 0, max_lon := 1, max_lat := 1, zoom := 17 }).2
      (by decide)⟩

/-- Length of a byte-list `flatMap`. -/
theorem length_flatMap_nat {α : Type} (l : List α) (f : α → List ℕ) :
    (l.flatMap f).length = (l.map (fun a => (f a).length)).sum := by
  induction l with
  | nil => rfl
  | cons a l ih => simp [List.flatMap_cons, ih]

/-- Each projected point serialises to 16 bytes. -/
theorem length_pointBlock (pb : ℚ × ℚ → List ℕ) (h16 : ∀ p, (pb p).length = 16)
    (l : List (ℚ × ℚ)) : (l.flatMap pb).length = 16 * l.length := by
  rw [length_flatMap_nat]
  induction l with
  | nil => rfl
  | cons a l ih => simp [h16, ih]; ring

/-- Sorting does not change a mapped sum. -/
theorem sum_map_mergeSort {α : Type} (l : List α) (le : α → α → Bool) (f : α → ℕ) :
    ((l.mergeSort le).map f).sum = (l.map f).sum :=
  List.Perm.sum_eq (List.Perm.map f (List.mergeSort_perm l le))

/-- The node block is 32 bytes per node. -/
theorem encode_priority_nodes_length (proj : ℚ → ℚ → ℚ × ℚ) (pb : ℚ × ℚ → List ℕ)
    (h16 : ∀ p, (pb p).length = 16) (nodes : List NodeWithPriority) :
    (encode_priority_nodes proj pb nodes).length = 32 * nodes.length := by
  unfold encode_priority_nodes
  rw [length_flatMap_nat]
  induction nodes with
  | nil => rfl
  | cons a l ih => simp [u16le, u32le, i64le, h16] at ih ⊢; omega

/-- The way block is `4 + Σ (14 + 16·pᵢ)` bytes over the surviving ways. -/
theorem encode_ways_geometry_length (proj : ℚ → ℚ → ℚ × ℚ) (pb : ℚ × ℚ → List ℕ)
    (h16 : ∀ p, (pb p).length = 16) (s : OsmStore) (way_ids : List Int) :
    (encode_ways_geometry proj pb s way_ids).length =
      4 + ((waysData proj s way_ids).map (fun wd => 14 + 16 * wd.coords.length)).sum := by
  unfold encode_ways_geometry
  rw [List.length_append, length_flatMap_nat]
  have hrec : ∀ wd : WayData,
      (i64le wd.way_id ++ u16le wd.render_feature ++ u32le wd.coords.length ++
        wd.coords.flatMap pb).length = 14 + 16 * wd.coords.length := by
    intro wd
    simp [i64le, u16le, u32le, length_pointBlock pb h16]
    omega
  rw [List.map_congr_left (fun wd _ => hrec wd)]
  rw [sum_map_mergeSort]
  simp [u32le]

/-- The polygon block is `4 + Σ (12 + Σ (4 + 16·qᵢⱼ))` bytes. -/
theorem encode_polygons_geometry_length (pb : ℚ × ℚ → List ℕ)
    (h16 : ∀ p, (pb p).length = 16) (polygons : List AssembledPolygon) :
    (encode_polygons_geometry pb polygons).length =
      4 + (polygons.map (fun p =>
        12 + (p.rings.map (fun r => 4 + 16 * r.length)).sum)).sum := by
  unfold encode_polygons_geometry
  rw [List.length_append, length_flatMap_nat]
  have hring : ∀ p : AssembledPolygon,
      ((p.rings.flatMap (fun ring => u32le ring.length ++ ring.flatMap pb)).length) =
        (p.rings.map (fun r => 4 + 16 * r.length)).sum := by
    intro p
    rw [length_flatMap_nat]
    congr 1
    refine List.map_congr_left ?_
    intro r _
    simp [u32le, length_pointBlock pb h16]
    omega
  have hrec : ∀ p : AssembledPolygon,
      (i64le p.way_id ++ u16le p.render_feature ++ u16le p.rings.length ++
        p.rings.flatMap (fun ring => u32le ring.length ++ ring.flatMap pb)).length =
        12 + (p.rings.map (fun r => 4 + 16 * r.length)).sum := by
    intro p
    simp [i64le, u16le, hring p]
    omega
  rw [List.map_congr_left (fun p _ => hrec p)]
  rw [sum_map_mergeSort]
  simp [u32le]

/-- C3: every viewport response has byte length exactly
`16 + 32·N + 4 + Σᵢ(14 + 16·pᵢ) + 4 + Σᵢ(12 + Σⱼ(4 + 16·qᵢⱼ))`, where `N` is
the node count, `pᵢ` the per-way point counts of the encoded ways, and `qᵢⱼ`
the per-ring point counts of the encoded polygons (all integers
little-endian, each point 16 bytes). -/
theorem c3_response_length (proj : ℚ → ℚ → ℚ × ℚ) (pointBytes : ℚ × ℚ → List ℕ)
    (h16 : ∀ p, (pointBytes p).length = 16) (s : OsmStore)
    (nodes : List NodeWithPriority) (way_ids : List Int)
    (polygons : List AssembledPolygon) (truncated : Bool) :
    (build_viewport_response_v4 proj pointBytes s nodes way_ids polygons truncated).length =
      16 + 32 * nodes.length +
      (4 + ((waysData proj s way_ids).map (fun wd => 14 + 16 * wd.coords.length)).sum) +
      (4 + (polygons.map (fun p =>
        12 + (p.rings.map (fun r => 4 + 16 * r.length)).sum)).sum) := by
  unfold build_viewport_response_v4
  simp only [List.length_append, u32le, List.length_cons, List.length_nil]
  rw [encode_priority_nodes_length proj pointBytes h16,
    encode_ways_geometry_length proj pointBytes h16,
    encode_polygons_geometry_length pointBytes h16]

/-- Witness for C3 at a concrete input: one polygon with a single 4-point
ring, no nodes and no ways. -/
theorem c3_witness :
    (∀ p : ℚ × ℚ, ((fun (_ : ℚ × ℚ) => List.replicate 16 (0 : ℕ)) p).length = 16) ∧
    (build_viewport_response_v4 (fun a b => (a, b)) (fun _ => List.replicate 16 0)
      OsmStore.new [] [] [samplePolygon] false).length =
      16 + 32 * ([] : List NodeWithPriority).length +
      (4 + ((waysData (fun a b => (a, b)) OsmStore.new []).map
        (fun wd => 14 + 16 * wd.coords.length)).sum) +
      (4 + ([samplePolygon].map
        (fun p => 12 + (p.rings.map (fun r => 4 + 16 * r.length)).sum)).sum) :=
  ⟨fun _ => by simp,
    c3_response_length (fun a b => (a, b)) (fun _ => List.replicate 16 0)
      (fun _ => by simp) OsmStore.new [] [] [samplePolygon] false⟩
/-- Occurrence count in an empty ways map. -/
theorem occCount_nil (n : Int) : occCount [] n = 0 := rfl

/-- Occurrence count, cons case. -/
theorem occCount_cons (p : Int × OsmWay) (m : List (Int × OsmWay)) (n : Int) :
    occCount (p :: m) n = p.2.node_refs.count n + occCount m n := by
  simp [occCount]

/-- Occurrence count over an appended map. -/
theorem occCount_append (m1 m2 : List (Int × OsmWay)) (n : Int) :
    occCount (m1 ++ m2) n = occCount m1 n + occCount m2 n := by
  simp [occCount]

/-- A lookup misses exactly when no entry carries the key. -/
theorem mapGet_eq_none_iff {α : Type} (m : List (Int × α)) (k : Int) :
    mapGet m k = none ↔ ∀ p ∈ m, p.1 ≠ k := by
  simp [mapGet, List.find?_eq_none]

/-- Inserting a fresh key appends. -/
theorem mapInsert_of_none {α : Type} (m : List (Int × α)) (k : Int) (v : α)
    (h : mapGet m k = none) : mapInsert m k v = m ++ [(k, v)] := by
  have hf : m.find? (fun p => p.1 == k) = none := by
    simpa [mapGet, Option.map_eq_none'] using h
  simp [mapInsert, hf]

/-- Below saturation, the increment loop adds the occurrence count. -/
theorem bump_eq (refs : List Int) (rc : Int → ℕ) (n : Int)
    (h : rc n + refs.count n ≤ 65535) :
    bumpRefCounts rc refs n = rc n + refs.count n := by
  induction refs generalizing rc with
  | nil => simp [bumpRefCounts]
  | cons r refs ih =>
    show bumpRefCounts (upd rc r (min (rc r + 1) 65535)) refs n = _
    by_cases hr : n = r
    · subst hr
      have hc : (n :: refs).count n = refs.count n + 1 := by simp [List.count_cons]
      rw [hc] at h
      have h1 : min (rc n + 1) 65535 = rc n + 1 := by omega
      rw [h1]
      have h2 : (upd rc n (rc n + 1)) n + refs.count n ≤ 65535 := by
        simp [upd]
        omega
      rw [ih (upd rc n (rc n + 1)) h2, hc]
      simp [upd]
      omega
    · have hc : (r :: refs).count n = refs.count n := by
        simp [List.count_cons, hr]
      rw [hc] at h
      have h2 : (upd rc r (min (rc r + 1) 65535)) n + refs.count n ≤ 65535 := by
        simp [upd, hr]
        omega
      rw [ih _ h2, hc]
      simp [upd, hr]

/-- The decrement loop subtracts the occurrence count (saturating at 0). -/
theorem drop_eq (refs : List Int) (rc : Int → ℕ) (n : Int) :
    dropRefCounts rc refs n = rc n - refs.count n := by
  induction refs generalizing rc with
  | nil => simp [dropRefCounts]
  | cons r refs ih =>
    show dropRefCounts (upd rc r (rc r - 1)) refs n = _
    by_cases hr : n = r
    · subst hr
      rw [ih]
      simp [upd, List.count_cons]
      omega
    · rw [ih]
      simp [upd, hr, List.count_cons, Ne.symm hr]

/-- Erasing an absent key is the identity. -/
theorem mapErase_of_not_mem {α : Type} (m : List (Int × α)) (k : Int)
    (h : ∀ p ∈ m, p.1 ≠ k) : mapErase m k = m := by
  induction m with
  | nil => rfl
  | cons p m ih =>
    have hp : (p.1 != k) = true := by
      simpa using h p (by simp)
    simp only [mapErase, List.filter_cons, hp, if_pos]
    rw [show List.filter (fun p => p.1 != k) m = mapErase m k from rfl,
      ih (fun q hq => h q (by simp [hq]))]

/-- Adjusting an absent key is the identity. -/
theorem mapAdjust_of_not_mem {α : Type} (m : List (Int × α)) (k : Int) (f : α → α)
    (h : ∀ p ∈ m, p.1 ≠ k) : mapAdjust m k f = m := by
  induction m with
  | nil => rfl
  | cons p m ih =>
    have hp : (p.1 == k) = false := by
      simpa using h p (by simp)
    simp only [mapAdjust, List.map_cons, hp, Bool.false_eq_true, if_neg]
    rw [show List.map (fun p => if p.1 == k then (p.1, f p.2) else p) m = mapAdjust m k f
      from rfl, ih (fun q hq => h q (by simp [hq]))]
    simp

/-- With unique keys, the head key occurs in no tail entry. -/
theorem keys_not_mem_of_nodup_head {α : Type} (pk : Int) (pv : α) (m : List (Int × α))
    (h : (((pk, pv) :: m).map Prod.fst).Nodup) : ∀ p ∈ m, p.1 ≠ pk := by
  intro p hp
  simp only [List.map_cons, List.nodup_cons] at h
  intro hcontra
  exact h.1 (hcontra ▸ List.mem_map_of_mem Prod.fst hp)

/-- Erasing a way removes exactly its occurrences from the count. -/
theorem occCount_mapErase {m : List (Int × OsmWay)} {k : Int} {w : OsmWay}
    (hnd : (m.map Prod.fst).Nodup) (h : mapGet m k = some w) (n : Int) :
    occCount m n = occCount (mapErase m k) n + w.node_refs.count n := by
  induction m with
  | nil => simp [mapGet] at h
  | cons p m ih =>
    obtain ⟨pk, pv⟩ := p
    rw [mapGet_cons] at h
    by_cases hpk : pk = k
    · rw [if_pos hpk] at h
      obtain rfl := Option.some.inj h
      have hrest : mapErase m k = m := by
        refine mapErase_of_not_mem m k (fun q hq => ?_)
        subst hpk
        exact keys_not_mem_of_nodup_head pk pv m hnd q hq
      have hhead : ((pk, pv).1 != k) = false := by simp [hpk]
      simp only [mapErase, List.filter_cons, hhead]
      rw [if_neg (by simp)]
      rw [show List.filter (fun p => p.1 != k) m = mapErase m k from rfl, hrest]
      rw [occCount_cons]
      dsimp only
      omega
    · rw [if_neg hpk] at h
      have hnd2 : (m.map Prod.fst).Nodup := by
        simp only [List.map_cons, List.nodup_cons] at hnd
        exact hnd.2
      have hhead : ((pk, pv).1 != k) = true := by simp [hpk]
      simp only [mapErase, List.filter_cons, hhead, if_pos]
      rw [show List.filter (fun p => p.1 != k) m = mapErase m k from rfl]
      rw [occCount_cons, occCount_cons, ih hnd2 h]
      omega

/-- Adjusting a way exchanges its old occurrences for the new ones. -/
theorem occCount_mapAdjust {m : List (Int × OsmWay)} {k : Int} {w : OsmWay}
    (f : OsmWay → OsmWay)
    (hnd : (m.map Prod.fst).Nodup) (h : mapGet m k = some w) (n : Int) :
    occCount (mapAdjust m k f) n + w.node_refs.count n =
      occCount m n + (f w).node_refs.count n := by
  induction m with
  | nil => simp [mapGet] at h
  | cons p m ih =>
    obtain ⟨pk, pv⟩ := p
    rw [mapGet_cons] at h
    rw [mapAdjust_cons]
    by_cases hpk : pk = k
    · rw [if_pos hpk] at h
      obtain rfl := Option.some.inj h
      rw [if_pos hpk]
      have hrest : mapAdjust m k f = m := by
        refine mapAdjust_of_not_mem m k f (fun q hq => ?_)
        subst hpk
        exact keys_not_mem_of_nodup_head pk pv m hnd q hq
      rw [hrest, occCount_cons, occCount_cons]
      dsimp only
      omega
    · rw [if_neg hpk] at h
      rw [if_neg hpk]
      have hnd2 : (m.map Prod.fst).Nodup := by
        simp only [List.map_cons, List.nodup_cons] at hnd
        exact hnd.2
      rw [occCount_cons, occCount_cons]
      have := ih hnd2 h
      omega

/-- Adjusting preserves the key list. -/
theorem keys_mapAdjust {α : Type} (m : List (Int × α)) (k : Int) (f : α → α) :
    (mapAdjust m k f).map Prod.fst = m.map Prod.fst := by
  induction m with
  | nil => rfl
  | cons p m ih =>
    rw [mapAdjust_cons]
    by_cases hpk : p.1 = k
    · obtain ⟨pk, pv⟩ := p
      simp only at hpk
      rw [if_pos hpk]
      simp only [List.map_cons, ih]
    · obtain ⟨pk, pv⟩ := p
      simp only at hpk
      rw [if_neg hpk]
      simp only [List.map_cons, ih]

/-- Erasing yields a sublist of the keys. -/
theorem keys_mapErase_sublist {α : Type} (m : List (Int × α)) (k : Int) :
    List.Sublist ((mapErase m k).map Prod.fst) (m.map Prod.fst) :=
  List.Sublist.map Prod.fst (List.filter_sublist m)

/-- Filtering a value out leaves none of it. -/
theorem count_filter_self (refs : List Int) (nid : Int) :
    (refs.filter (fun r => r != nid)).count nid = 0 := by
  rw [List.count_eq_zero]
  intro hmem
  rcases List.mem_filter.1 hmem with ⟨_, hpred⟩
  simp at hpred

/-- Filtering a value out keeps the count of the others. -/
theorem count_filter_other (refs : List Int) (nid n : Int) (hn : n ≠ nid) :
    (refs.filter (fun r => r != nid)).count n = refs.count n := by
  induction refs with
  | nil => rfl
  | cons r refs ih =>
    simp only [List.filter_cons]
    by_cases hr : r = nid
    · have h1 : (r != nid) = false := by simp [hr]
      rw [h1]
      rw [if_neg (by simp)]
      rw [ih]
      have hnr : n ≠ r := by rw [hr]; exact hn
      simp [List.count_cons, hnr]
    · have h1 : (r != nid) = true := by simp [hr]
      rw [h1, if_pos rfl]
      by_cases hnr : n = r
      · subst hnr
        simp [List.count_cons, ih]
      · simp [List.count_cons, hnr, ih]

/-- The recorded positions are one per occurrence. -/
theorem occIndicesFrom_length (nid : Int) (refs : List Int) :
    ∀ i, (occIndicesFrom nid i refs).length = refs.count nid := by
  induction refs with
  | nil => intro i; rfl
  | cons r refs ih =>
    intro i
    by_cases hr : r = nid
    · simp [occIndicesFrom, hr, ih, List.count_cons]
    · simp [occIndicesFrom, hr, ih, List.count_cons, Ne.symm hr]

/-- An in-range insertion grows the list by one. -/
theorem insertAt_length (a : Int) (pos : ℕ) (l : List Int) (h : pos ≤ l.length) :
    (insertAt a pos l).length = l.length + 1 := by
  induction pos generalizing l with
  | zero => simp [insertAt]
  | succ p ih =>
    cases l with
    | nil => simp at h
    | cons x xs =>
      simp only [insertAt, List.length_cons]
      rw [ih xs (by simpa using h)]

/-- An in-range insertion adds one occurrence of the inserted value. -/
theorem insertAt_count (a : Int) (pos : ℕ) (l : List Int) (n : Int) (h : pos ≤ l.length) :
    (insertAt a pos l).count n = l.count n + if n = a then 1 else 0 := by
  induction pos generalizing l with
  | zero =>
    simp only [insertAt]
    rw [List.count_cons]
    by_cases hn : n = a
    · simp [hn]
    · simp [hn, Ne.symm hn]
  | succ p ih =>
    cases l with
    | nil => simp at h
    | cons x xs =>
      simp only [insertAt, List.count_cons]
      rw [ih xs (by simpa using h)]
      omega

/-- The insertion loop, run at in-range positions, adds exactly `indices.len()` occurrences of the node. -/
theorem insertRefs_spec (nid : Int) (idxs : List ℕ) :
    ∀ (offset : ℕ) (refs : List Int), (∀ i ∈ idxs, i + offset ≤ refs.length) →
      (insertRefs nid idxs offset refs).length = refs.length + idxs.length ∧
      ∀ n, (insertRefs nid idxs offset refs).count n =
        refs.count n + if n = nid then idxs.length else 0 := by
  induction idxs with
  | nil =>
    intro offset refs _
    exact ⟨rfl, fun n => by simp [insertRefs]⟩
  | cons idx rest ih =>
    intro offset refs h
    have hpos : idx + offset ≤ refs.length := h idx (by simp)
    simp only [insertRefs, if_pos hpos]
    have hlen : (insertAt nid (idx + offset) refs).length = refs.length + 1 :=
      insertAt_length nid (idx + offset) refs hpos
    have hrest : ∀ i ∈ rest, i + (offset + 1) ≤ (insertAt nid (idx + offset) refs).length := by
      intro i hi
      rw [hlen]
      have := h i (by simp [hi])
      omega
    obtain ⟨ihlen, ihcount⟩ := ih (offset + 1) (insertAt nid (idx + offset) refs) hrest
    refine ⟨by rw [ihlen, hlen]; simp [List.length_cons]; omega, fun n => ?_⟩
    rw [ihcount n, insertAt_count nid (idx + offset) refs n hpos]
    by_cases hn : n = nid
    · simp only [hn, if_pos, List.length_cons]
      omega
    · simp only [hn, if_neg, not_false_eq_true]

/-- Occurrence count of a singleton map. -/
theorem occCount_singleton (k : Int) (w : OsmWay) (n : Int) :
    occCount [(k, w)] n = w.node_refs.count n := by
  simp [occCount]

/-- Inserting a fresh, unsaturated way keeps the ref-count bookkeeping exact. -/
theorem refInv_way_insert (ways : List (Int × OsmWay)) (rc : Int → ℕ) (w : OsmWay)
    (hnd : (ways.map Prod.fst).Nodup) (hrc : ∀ n, rc n = occCount ways n)
    (hfresh : mapGet ways w.id = none)
    (hbound : ∀ n, occCount ways n + w.node_refs.count n ≤ 65535) :
    ((mapInsert ways w.id w).map Prod.fst).Nodup ∧
    (∀ n, bumpRefCounts rc w.node_refs n = occCount (mapInsert ways w.id w) n) ∧
    (∀ n, occCount (mapInsert ways w.id w) n ≤ 65535) := by
  have hins : mapInsert ways w.id w = ways ++ [(w.id, w)] := mapInsert_of_none _ _ _ hfresh
  refine ⟨?_, ?_, ?_⟩
  · rw [hins, List.map_append]
    refine List.Nodup.append hnd (by simp) ?_
    intro a ha hb2
    simp only [List.map_cons, List.map_nil, List.mem_singleton] at hb2
    subst hb2
    rcases List.mem_map.1 ha with ⟨p, hp, hpe⟩
    exact ((mapGet_eq_none_iff ways w.id).1 hfresh p hp) hpe
  · intro n
    rw [bump_eq _ _ _ (by rw [hrc]; exact hbound n), hrc, hins, occCount_append,
      occCount_singleton]
  · intro n
    rw [hins, occCount_append, occCount_singleton]
    have := hbound n
    omega

/-- The invariant is preserved by `insert_way` under its precondition. -/
theorem storeInv_insert_way (s : OsmStore) (w : OsmWay) (hinv : StoreInv s)
    (hpre : opPre (.insertWayOp w) s) : StoreInv (insert_way s w) := by
  obtain ⟨hnd, hrc, hb⟩ := hinv
  obtain ⟨hfresh, hbound⟩ := hpre
  obtain ⟨h1, h2, h3⟩ := refInv_way_insert s.ways s.node_ref_count w hnd hrc hfresh hbound
  exact ⟨h1, h2, h3⟩

/-- The invariant is preserved by `add_way_with_index` under its precondition. -/
theorem storeInv_add_way (s : OsmStore) (w : OsmWay) (hinv : StoreInv s)
    (hpre : opPre (.addWayOp w) s) : StoreInv (add_way_with_index s w) := by
  obtain ⟨hnd, hrc, hb⟩ := hinv
  obtain ⟨hfresh, hbound⟩ := hpre
  obtain ⟨h1, h2, h3⟩ := refInv_way_insert s.ways s.node_ref_count w hnd hrc hfresh hbound
  exact ⟨h1, h2, h3⟩

/-- The invariant is preserved by `remove_way_with_index` unconditionally. -/
theorem storeInv_remove_way (s : OsmStore) (wid : Int) (hinv : StoreInv s) :
    StoreInv (remove_way_with_index s wid).2 := by
  obtain ⟨hnd, hrc, hb⟩ := hinv
  cases h : mapGet s.ways wid with
  | none =>
    simp only [remove_way_with_index, h]
    exact ⟨hnd, hrc, hb⟩
  | some w =>
    simp only [remove_way_with_index, h]
    refine ⟨(hnd.sublist (keys_mapErase_sublist s.ways wid) : _), ?_, ?_⟩
    · intro n
      show dropRefCounts s.node_ref_count w.node_refs n = occCount (mapErase s.ways wid) n
      have hocc := occCount_mapErase hnd h n
      rw [drop_eq, hrc]
      omega
    · intro n
      show occCount (mapErase s.ways wid) n ≤ 65535
      have hocc := occCount_mapErase hnd h n
      have := hb n
      omega

/-- The invariant is preserved by `remove_node_from_way` unconditionally. -/
theorem storeInv_remove_node_from_way (s : OsmStore) (wid nid : Int)
    (hinv : StoreInv s) : StoreInv (remove_node_from_way s wid nid).2 := by
  obtain ⟨hnd, hrc, hb⟩ := hinv
  cases h : mapGet s.ways wid with
  | none =>
    simp only [remove_node_from_way, h]
    exact ⟨hnd, hrc, hb⟩
  | some w =>
    simp only [remove_node_from_way, h]
    have hcnt : (occIndicesFrom nid 0 w.node_refs).length = w.node_refs.count nid :=
      occIndicesFrom_length nid w.node_refs 0
    have hadj : ∀ n, occCount (mapAdjust s.ways wid (fun w =>
        { w with node_refs := w.node_refs.filter (fun r => r != nid) })) n +
        w.node_refs.count n =
        occCount s.ways n + (w.node_refs.filter (fun r => r != nid)).count n := by
      intro n
      have h0 := occCount_mapAdjust
        (fun w => { w with node_refs := w.node_refs.filter (fun r => r != nid) }) hnd h n
      dsimp only at h0
      exact h0
    have hkeys : ((mapAdjust s.ways wid (fun w =>
        { w with node_refs := w.node_refs.filter (fun r => r != nid) })).map Prod.fst).Nodup := by
      rw [keys_mapAdjust]
      exact hnd
    by_cases hemp : (occIndicesFrom nid 0 w.node_refs).isEmpty
    · simp only [if_pos hemp]
      have hzero : w.node_refs.count nid = 0 := by
        rw [← hcnt, List.length_eq_zero]
        exact List.isEmpty_iff.1 hemp
      refine ⟨hkeys, ?_, ?_⟩
      · intro n
        show s.node_ref_count n = occCount (mapAdjust s.ways wid (fun w =>
          { w with node_refs := w.node_refs.filter (fun r => r != nid) })) n
        rw [hrc]
        have h1 := hadj n
        by_cases hn : n = nid
        · subst hn
          rw [count_filter_self] at h1
          omega
        · rw [count_filter_other _ _ _ hn] at h1
          omega
      · intro n
        show occCount (mapAdjust s.ways wid (fun w =>
          { w with node_refs := w.node_refs.filter (fun r => r != nid) })) n ≤ 65535
        have h1 := hadj n
        have h2 := hb n
        by_cases hn : n = nid
        · subst hn
          rw [count_filter_self] at h1
          omega
        · rw [count_filter_other _ _ _ hn] at h1
          omega
    · simp only [if_neg hemp]
      have hk : (occIndicesFrom nid 0 w.node_refs).length % 65536 =
          w.node_refs.count nid := by
        rw [hcnt, Nat.mod_eq_of_lt]
        have h1 := hadj nid
        rw [count_filter_self] at h1
        have h2 := hb nid
        omega
      refine ⟨hkeys, ?_, ?_⟩
      · intro n
        show upd s.node_ref_count nid
          (s.node_ref_count nid - (occIndicesFrom nid 0 w.node_refs).length % 65536) n =
          occCount (mapAdjust s.ways wid (fun w =>
            { w with node_refs := w.node_refs.filter (fun r => r != nid) })) n
        by_cases hn : n = nid
        · rw [hn]
          unfold upd
          rw [if_pos rfl, hk, hrc]
          have h1 := hadj nid
          rw [count_filter_self] at h1
          omega
        · unfold upd
          rw [if_neg hn, hrc]
          have h1 := hadj n
          rw [count_filter_other _ _ _ hn] at h1
          omega
      · intro n
        show occCount (mapAdjust s.ways wid (fun w =>
          { w with node_refs := w.node_refs.filter (fun r => r != nid) })) n ≤ 65535
        have h1 := hadj n
        have h2 := hb n
        by_cases hn : n = nid
        · subst hn
          rw [count_filter_self] at h1
          omega
        · rw [count_filter_other _ _ _ hn] at h1
          omega

/-- The invariant is preserved by `insert_node_to_way` under its precondition. -/
theorem storeInv_insert_node_to_way (s : OsmStore) (wid nid : Int) (idxs : List ℕ)
    (hinv : StoreInv s) (hpre : opPre (.insertToWayOp wid nid idxs) s) :
    StoreInv (insert_node_to_way s wid nid idxs) := by
  obtain ⟨hnd, hrc, hb⟩ := hinv
  obtain ⟨w, h, hrange, hbound⟩ := hpre
  have hspec := insertRefs_spec nid idxs 0 w.node_refs
    (fun i hi => by have := hrange i hi; omega)
  have hadj : ∀ n, occCount (mapAdjust s.ways wid (fun w =>
      { w with node_refs := insertRefs nid idxs 0 w.node_refs })) n +
      w.node_refs.count n =
      occCount s.ways n + (insertRefs nid idxs 0 w.node_refs).count n := by
    intro n
    have h0 := occCount_mapAdjust
      (fun w => { w with node_refs := insertRefs nid idxs 0 w.node_refs }) hnd h n
    dsimp only at h0
    exact h0
  have hkeys : ((mapAdjust s.ways wid (fun w =>
      { w with node_refs := insertRefs nid idxs 0 w.node_refs })).map Prod.fst).Nodup := by
    rw [keys_mapAdjust]
    exact hnd
  have hcount : ∀ n, (insertRefs nid idxs 0 w.node_refs).count n =
      w.node_refs.count n + if n = nid then idxs.length else 0 := hspec.2
  unfold insert_node_to_way
  by_cases hemp : idxs.isEmpty
  · simp only [if_pos hemp]
    have hzero : idxs.length = 0 := by
      rw [List.length_eq_zero]
      exact List.isEmpty_iff.1 hemp
    refine ⟨hkeys, ?_, ?_⟩
    · intro n
      show s.node_ref_count n = occCount (mapAdjust s.ways wid (fun w =>
        { w with node_refs := insertRefs nid idxs 0 w.node_refs })) n
      rw [hrc]
      by_cases hn : n = nid
      · have h1 := hadj n
        rw [hcount n, hzero, if_pos hn] at h1
        omega
      · have h1 := hadj n
        rw [hcount n, hzero, if_neg hn] at h1
        omega
    · intro n
      show occCount (mapAdjust s.ways wid (fun w =>
        { w with node_refs := insertRefs nid idxs 0 w.node_refs })) n ≤ 65535
      have h2 := hb n
      by_cases hn : n = nid
      · have h1 := hadj n
        rw [hcount n, hzero, if_pos hn] at h1
        omega
      · have h1 := hadj n
        rw [hcount n, hzero, if_neg hn] at h1
        omega
  · simp only [if_neg hemp]
    have hlenle : idxs.length ≤ 65535 := by omega
    have hk : idxs.length % 65536 = idxs.length := Nat.mod_eq_of_lt (by omega)
    refine ⟨hkeys, ?_, ?_⟩
    · intro n
      show upd s.node_ref_count nid
        (min (s.node_ref_count nid + idxs.length % 65536) 65535) n =
        occCount (mapAdjust s.ways wid (fun w =>
          { w with node_refs := insertRefs nid idxs 0 w.node_refs })) n
      by_cases hn : n = nid
      · rw [hn]
        unfold upd
        rw [if_pos rfl, hk, hrc]
        have h1 := hadj nid
        rw [hcount nid, if_pos rfl] at h1
        have h2 := hb nid
        omega
      · unfold upd
        rw [if_neg hn, hrc]
        have h1 := hadj n
        rw [hcount n, if_neg hn] at h1
        omega
    · intro n
      show occCount (mapAdjust s.ways wid (fun w =>
        { w with node_refs := insertRefs nid idxs 0 w.node_refs })) n ≤ 65535
      by_cases hn : n = nid
      · rw [hn]
        have h1 := hadj nid
        rw [hcount nid, if_pos rfl] at h1
        have h2 := hb nid
        omega
      · have h1 := hadj n
        have h2 := hb n
        rw [hcount n, if_neg hn] at h1
        omega

/-- The invariant is preserved by every well-formed mutation. -/
theorem storeInv_applyOp (op : StoreOp) (s : OsmStore) (hinv : StoreInv s)
    (hpre : opPre op s) : StoreInv (applyOp op s) := by
  cases op with
  | insertWayOp w => exact storeInv_insert_way s w hinv hpre
  | addWayOp w => exact storeInv_add_way s w hinv hpre
  | removeWayOp wid => exact storeInv_remove_way s wid hinv
  | removeFromWayOp wid nid => exact storeInv_remove_node_from_way s wid nid hinv
  | insertToWayOp wid nid idxs => exact storeInv_insert_node_to_way s wid nid idxs hinv hpre

/-- The invariant is preserved by every well-formed mutation sequence. -/
theorem storeInv_applyOps (ops : List StoreOp) : ∀ s : OsmStore, StoreInv s →
    opsPre ops s → StoreInv (applyOps ops s) := by
  induction ops with
  | nil => intro s hinv _; exact hinv
  | cons op ops ih =>
    intro s hinv hpre
    exact ih (applyOp op s) (storeInv_applyOp op s hinv hpre.1) hpre.2

/-- C4, counterexample: the claim fails for arbitrary op sequences.
`insert_node_to_way` increments the ref-count whenever its `indices` argument
is non-empty, even when the target way does not exist: on a fresh store it
leaves `node_ref_count[5] = 1` while node 5 appears in no way. -/
theorem c4_counterexample :
    (applyOp (StoreOp.insertToWayOp 1 5 [0]) OsmStore.new).node_ref_count 5 = 1 ∧
    occCount (applyOp (StoreOp.insertToWayOp 1 5 [0]) OsmStore.new).ways 5 = 0 := by
  constructor
  · decide
  · decide

/-- C4, amended: after any sequence of the store mutations in which every way
insertion uses an id not already present and stays below `u16` saturation, and
every `insert_node_to_way` call targets an existing way at in-range positions
(its intended use, undoing a removal) staying below saturation,
`node_ref_count[n]` equals the number of (way, position) pairs at which `n`
appears across all ways in the store. -/
theorem c4_ref_count_matches (ops : List StoreOp) (s : OsmStore)
    (hinv : StoreInv s) (hpre : opsPre ops s) :
    ∀ n, (applyOps ops s).node_ref_count n = occCount (applyOps ops s).ways n :=
  (storeInv_applyOps ops s hinv hpre).2.1

/-- Witness for C4 at a concrete input: insert way `[5, 6]`, remove node 6
from it, then remove the way. -/
theorem c4_witness :
    StoreInv OsmStore.new ∧
    opsPre [StoreOp.insertWayOp cascadeWay, StoreOp.removeFromWayOp 100 6,
      StoreOp.removeWayOp 100] OsmStore.new ∧
    ∀ n, (applyOps [StoreOp.insertWayOp cascadeWay, StoreOp.removeFromWayOp 100 6,
        StoreOp.removeWayOp 100] OsmStore.new).node_ref_count n =
      occCount (applyOps [StoreOp.insertWayOp cascadeWay, StoreOp.removeFromWayOp 100 6,
        StoreOp.removeWayOp 100] OsmStore.new).ways n := by
  have hinv : StoreInv OsmStore.new :=
    ⟨List.nodup_nil, fun _ => rfl, fun _ => Nat.zero_le 65535⟩
  have hpre : opsPre [StoreOp.insertWayOp cascadeWay, StoreOp.removeFromWayOp 100 6,
      StoreOp.removeWayOp 100] OsmStore.new := by
    refine ⟨⟨rfl, fun n => ?_⟩, trivial, trivial, trivial⟩
    show 0 + List.count n [5, 6] ≤ 65535
    have := List.count_le_length n [5, 6]
    simp at this ⊢
    omega
  exact ⟨hinv, hpre, c4_ref_count_matches _ _ hinv hpre⟩

/-- In ideal real arithmetic the projection round-trip is exact for latitudes
within the clamped range (so any positive tolerance holds; what remains of
the round-trip claim is only the IEEE-754 rounding of the library
`tan`/`ln`/`exp`/`atan`, which this embedding does not model). -/
theorem mercator_round_trip_ideal (lon lat : ℝ) (h : |lat| ≤ 85.051129) :
    mercator_to_lonlat_ideal (lonlat_to_mercator_ideal lon lat).1
      (lonlat_to_mercator_ideal lon lat).2 = (lon, lat) := by
  obtain ⟨h1, h2⟩ := abs_le.1 h
  have hclamp : max (-85.051129) (min lat 85.051129) = lat := by
    rw [min_eq_left h2, max_eq_right h1]
  unfold mercator_to_lonlat_ideal lonlat_to_mercator_ideal
  simp only [hclamp]
  have hpi := Real.pi_pos
  set t := (90 + lat) * Real.pi / 360 with ht
  have htpos : 0 < t := by
    rw [ht]
    apply div_pos (mul_pos (by linarith) Real.pi_pos) (by norm_num)
  have htlt : t < Real.pi / 2 := by
    rw [ht]
    rw [div_lt_div_iff₀ (by norm_num) (by norm_num : (0:ℝ) < 2)]
    nlinarith
  have htan : 0 < Real.tan t := Real.tan_pos_of_pos_of_lt_pi_div_two htpos htlt
  have hy : Real.log (Real.tan t) * 20037508.342789244 / Real.pi * Real.pi /
      20037508.342789244 = Real.log (Real.tan t) := by
    field_simp
  refine Prod.ext ?_ ?_
  · show lon * 20037508.342789244 / 180 * 180 / 20037508.342789244 = lon
    field_simp
  · show (2 * Real.arctan (Real.exp (Real.log (Real.tan t) * 20037508.342789244 /
      Real.pi * Real.pi / 20037508.342789244)) - Real.pi / 2) * 180 / Real.pi = lat
    rw [hy, Real.exp_log htan,
      Real.arctan_tan (by linarith) htlt]
    rw [ht]
    field_simp
    ring

end Mosm
